import Mathlib

/-!
biosdevname, `src/pci.c`: PCI address codec, slot resolution, device registry, VF/PF linking

A shallow embedding of `src/pci.c`.

* C strings are `List Char`.
* A C `int`/`unsigned int` holding an address field is the `Nat` of its 32-bit pattern;
  conversions that truncate are written with an explicit `%`.
* A `struct pci_device *` is an index into the append-only store `heap` of allocated records;
  `NULL` is `none`.
* A function that can dereference a bad pointer, or loop, returns a `Result`.
-/

namespace Pci

/-! ## Outcomes -/

/-- Outcome of running a C function. -/
inductive Result (α : Type) where
  /-- the function returned `a` -/
  | ok (a : α)
  /-- undefined behaviour: a dereference of `NULL` (or of `NULL + 1`), a read past an
  unterminated buffer, or a list operation that breaks the list structure -/
  | fault
  /-- the loop fuel ran out before the function returned -/
  | timeout
  deriving DecidableEq

/-! ## Constants -/

/-- The constant `INT_MAX` of `<limits.h>` for a 32-bit `int`. -/
def INT_MAX : Int := 2147483647

/-- The constant `PATH_MAX` of `<limits.h>` on Linux. -/
def PATH_MAX : Nat := 4096

/-- The constant `ULONG_MAX` for a 64-bit `unsigned long` (LP64). -/
def ULONG_MAX : Nat := 2 ^ 64 - 1

/-- Modelled from the spec: `PHYSICAL_SLOT_UNKNOWN` of `pci.h` (not among the sources), the
"unknown" slot sentinel, which is `INT_MAX`. -/
def PHYSICAL_SLOT_UNKNOWN : Int := INT_MAX

/-- Modelled from the spec: `HAS_SYSFS_INDEX` of `pci.h` (not among the sources), the bit of
`uses_sysfs` that records the presence of `sysfs_index`. -/
def HAS_SYSFS_INDEX : Nat := 1

/-- Modelled from the spec: `HAS_SYSFS_LABEL` of `pci.h` (not among the sources), the bit of
`uses_sysfs` that records the presence of `sysfs_label`; independent of `HAS_SYSFS_INDEX`. -/
def HAS_SYSFS_LABEL : Nat := 2

/-! ## `sscanf` (glibc) for the directives used in `pci.c` -/

/-- The function `isspace` in the C locale. -/
def isspace (c : Char) : Bool :=
  c = ' ' || c = '\t' || c = '\n' || c = '\x0b' || c = '\x0c' || c = '\r'

/-- Value of a hexadecimal digit character (`isxdigit`), if it is one. -/
def digit_value (c : Char) : Option Nat :=
  if 48 ≤ c.toNat ∧ c.toNat ≤ 57 then some (c.toNat - 48)
  else if 97 ≤ c.toNat ∧ c.toNat ≤ 102 then some (c.toNat - 87)
  else if 65 ≤ c.toNat ∧ c.toNat ≤ 70 then some (c.toNat - 55)
  else none

/-- Value of `c` as a digit of the given base (10 or 16), if it is one. -/
def digit_in (base : Nat) (c : Char) : Option Nat :=
  match digit_value c with
  | some d => if d < base then some d else none
  | none => none

/-- One step of the field width: `if (width > 0) --width;` (`none` is "no width"). -/
def dec_width : Option Nat → Option Nat
  | none => none
  | some w => some (w - 1)

/-- The digit loop of a numeric conversion: reads digits while the width lasts.
Returns the digit values read and the unread input. -/
def scan_digits (base : Nat) : Option Nat → List Char → List Nat × List Char
  | _, [] => ([], [])
  | w, c :: cs =>
    if w = some 0 then ([], c :: cs)
    else
      match digit_in base c with
      | none => ([], c :: cs)
      | some d => ((d :: (scan_digits base (dec_width w) cs).1), (scan_digits base (dec_width w) cs).2)

/-- The leading `0` / `0x` step of a numeric conversion. A leading `0` is kept as a digit;
for base 16 an `x` or `X` right after it is consumed (glibc consumes it even when no hex
digit follows). Returns the digits kept, the width left and the unread input. -/
def scan_lead (base : Nat) (w : Option Nat) (s : List Char) : List Nat × Option Nat × List Char :=
  match s with
  | [] => ([], w, [])
  | c :: cs =>
    if w ≠ some 0 ∧ c = '0' then
      match cs with
      | [] => ([0], dec_width w, [])
      | x :: t =>
        if dec_width w ≠ some 0 ∧ (x = 'x' ∨ x = 'X') ∧ base = 16 then
          ([0], dec_width (dec_width w), t)
        else ([0], dec_width w, x :: t)
    else ([], w, c :: cs)

/-- Value of a big-endian digit list. -/
def digits_value (base : Nat) (ds : List Nat) : Nat :=
  ds.foldl (fun acc d => acc * base + d) 0

/-- The function `strtoul` on an already scanned sign and digit list: clamps to `ULONG_MAX`
on overflow, negates modulo `2^64` after a minus sign. -/
def strtoul (neg : Bool) (base : Nat) (ds : List Nat) : Nat :=
  if digits_value base ds > ULONG_MAX then ULONG_MAX
  else if neg then (2 ^ 64 - digits_value base ds) % 2 ^ 64
  else digits_value base ds

/-- Result of one numeric conversion. -/
inductive scan_result where
  /-- input ended before the conversion could start -/
  | eof
  /-- matching failure: no digits -/
  | mismatch
  /-- the converted `unsigned int` and the unread input -/
  | value (v : Nat) (rest : List Char)
  deriving DecidableEq

/-- The part of a numeric conversion after white space is skipped: optional sign, leading
`0`/`0x`, digits; the `unsigned long` of `strtoul` is stored as `unsigned int`. -/
def scan_signed (base : Nat) (width : Option Nat) (c : Char) (cs : List Char) : scan_result :=
  let neg : Bool := c = '-'
  let signed : Bool := c = '-' || c = '+'
  let w1 := if signed then dec_width width else width
  let s1 := if signed then cs else c :: cs
  let lead := scan_lead base w1 s1
  let body := scan_digits base lead.2.1 lead.2.2
  let ds := lead.1 ++ body.1
  if ds = [] then scan_result.mismatch
  else scan_result.value (strtoul neg base ds % 2 ^ 32) body.2

/-- A `%x` / `%2x` / `%u` conversion of `sscanf`: skips white space, then converts. -/
def scan_number (base : Nat) (width : Option Nat) (s : List Char) : scan_result :=
  match s.dropWhile isspace with
  | [] => scan_result.eof
  | c :: cs => scan_signed base width c cs

/-- The directives of the format strings used in `pci.c`. -/
inductive directive where
  /-- a conversion `%x` (base 16) or `%u` (base 10), with an optional maximum field width -/
  | conv (base : Nat) (width : Option Nat)
  /-- an ordinary character, matched literally -/
  | lit (c : Char)
  deriving DecidableEq

/-- One `sscanf` run. `done` holds the values converted so far, in order. Returns the
return value of `sscanf` (`-1` is `EOF`: the input ended before the first conversion) and
the converted values, which the caller stores through its pointer arguments in order. -/
def sscanf_run : List directive → List Char → List Nat → Int × List Nat
  | [], _, done => (done.length, done)
  | directive.conv base width :: fmt, s, done =>
    match scan_number base width s with
    | scan_result.eof => (if done = [] then -1 else done.length, done)
    | scan_result.mismatch => (done.length, done)
    | scan_result.value v rest => sscanf_run fmt rest (done ++ [v])
  | directive.lit c :: fmt, s, done =>
    match s with
    | [] => (if done = [] then -1 else done.length, done)
    | x :: rest => if x = c then sscanf_run fmt rest done else (done.length, done)

/-- The call `sscanf(s, fmt, ...)`. -/
def sscanf (s : List Char) (fmt : List directive) : Int × List Nat :=
  sscanf_run fmt s []

/-- The format `"%x:%2x:%2x.%x"`. -/
def fmt_full : List directive :=
  [directive.conv 16 none, directive.lit ':', directive.conv 16 (some 2), directive.lit ':',
   directive.conv 16 (some 2), directive.lit '.', directive.conv 16 none]

/-- The format `"%2x:%2x.%x"`. -/
def fmt_legacy : List directive :=
  [directive.conv 16 (some 2), directive.lit ':', directive.conv 16 (some 2),
   directive.lit '.', directive.conv 16 none]

/-- The format `"%u"`. -/
def fmt_u : List directive := [directive.conv 10 none]

/-! ## `snprintf` for the format of `unparse_pci_name` -/

/-- The lowercase hexadecimal digit character of `d < 16`. -/
def hex_digit (d : Nat) : Char :=
  if d < 10 then Char.ofNat (48 + d) else Char.ofNat (87 + d)

/-- Little-endian base-16 digits of `n`, at least one, at most `fuel`. -/
def le_digits : Nat → Nat → List Nat
  | 0, _ => []
  | fuel + 1, n => (n % 16) :: (if n / 16 = 0 then [] else le_digits fuel (n / 16))

/-- Digits printed by `%x` for an `int` argument with bit pattern `n`, most significant first. -/
def x_digits (n : Nat) : List Nat := (le_digits 8 (n % 2 ^ 32)).reverse

/-- Digits printed by `%0<w>x`: `%x` padded on the left with zeros to at least `w` digits. -/
def x_digits_pad (w n : Nat) : List Nat :=
  List.replicate (w - (x_digits n).length) 0 ++ x_digits n

/-- Output of `snprintf(buf, size, ...)` for the full text `full`: at most `size - 1`
characters are stored (the terminator takes one), the return value is the full length. -/
def snprintf (size : Nat) (full : List Char) : List Char × Nat :=
  (full.take (size - 1), full.length)

/-! ## PCI addresses -/

/-- The fields of `struct pci_dev` (libpci) that `pci.c` uses. `domain` is what
`pci_domain_nr` returns (an `int`, as its 32-bit pattern); `bus`, `dev`, `func` are `u8`;
`class_word` is the word at `PCI_CLASS_DEVICE` of the device configuration space, which
`pci_read_word` returns. -/
structure pci_dev where
  domain : Nat
  bus : Nat
  dev : Nat
  func : Nat
  class_word : Nat
  deriving DecidableEq

/-- Text of the format `"%04x:%02x:%02x.%x"` for the four address fields. -/
def pci_name_text (pdev : pci_dev) : List Char :=
  (x_digits_pad 4 pdev.domain).map hex_digit ++ ':' ::
  ((x_digits_pad 2 pdev.bus).map hex_digit ++ ':' ::
  ((x_digits_pad 2 pdev.dev).map hex_digit ++ '.' ::
  (x_digits pdev.func).map hex_digit))

/-- The function `unparse_pci_name(buf, size, pdev)`: the characters stored in `buf` and the
return value. -/
def unparse_pci_name (size : Nat) (pdev : pci_dev) : List Char × Nat :=
  snprintf size (pci_name_text pdev)

/-- The function `parse_pci_name(s, &domain, &bus, &dev, &func)`: the return value and the
four variables after the call, given their values before it. Each `sscanf` stores the
fields it converted before it stopped. -/
def parse_pci_name (s : List Char) (domain bus dev func : Nat) : Nat × Nat × Nat × Nat × Nat :=
  let r1 := sscanf s fmt_full
  let domain1 := r1.2.getD 0 domain
  let bus1 := r1.2.getD 1 bus
  let dev1 := r1.2.getD 2 dev
  let func1 := r1.2.getD 3 func
  if r1.1 ≠ 4 then
    let r2 := sscanf s fmt_legacy
    let bus2 := r2.2.getD 0 bus1
    let dev2 := r2.2.getD 1 dev1
    let func2 := r2.2.getD 2 func1
    if r2.1 ≠ 3 then (1, domain1, bus2, dev2, func2)
    else (0, domain1, bus2, dev2, func2)
  else (0, domain1, bus1, dev1, func1)

/-! ## The host: sysfs and libpci -/

/-- The file-system snapshot the program reads. `readlink path` is the target of the
symbolic link at `path` (`none` when `readlink` returns `-1`); `sysfs_read_file path` is
the content `sysfs_read_file` (sysfs.c, not among the sources) hands back (`none` when it
returns non-zero). -/
structure host where
  readlink : List Char → Option (List Char)
  sysfs_read_file : List Char → Option (List Char)

/-- The function `pci_get_dev` of libpci: a fresh handle with the given address; the `u8`
fields truncate. It never returns `NULL`. -/
def pci_get_dev (domain bus dev func : Nat) : pci_dev :=
  { domain := domain, bus := bus % 256, dev := dev % 256, func := func % 256, class_word := 0 }

/-- The name `pci_name` that the sysfs readers build in their 16-byte buffer. -/
def pci_name16 (pdev : pci_dev) : List Char := (unparse_pci_name 16 pdev).1

/-- The function `read_pci_sysfs_path`: the bytes `readlink` stored in `buf` (at most
`bufsize`, no terminator added), or `none` when it returns 1. -/
def read_pci_sysfs_path (h : host) (bufsize : Nat) (pdev : pci_dev) : Option (List Char) :=
  match h.readlink ("/sys/bus/pci/devices/".toList ++ pci_name16 pdev) with
  | none => none
  | some target => some (target.take bufsize)

/-- The function `read_pci_sysfs_physfn`: as `read_pci_sysfs_path`, for the `physfn` link. -/
def read_pci_sysfs_physfn (h : host) (bufsize : Nat) (pdev : pci_dev) : Option (List Char) :=
  match h.readlink ("/sys/bus/pci/devices/".toList ++ pci_name16 pdev ++ "/physfn".toList) with
  | none => none
  | some target => some (target.take bufsize)

/-- The C string in a buffer of `bufsize` bytes that was zeroed with `memset` and then
received `bytes` from `readlink`: the bytes up to the first NUL; `none` when the bytes fill
the whole buffer, so that no terminator is left. -/
def c_string (bufsize : Nat) (bytes : List Char) : Option (List Char) :=
  if bytes.length < bufsize then some (bytes.takeWhile (fun c => c ≠ Char.ofNat 0)) else none

/-- The function `rindex(s, c)`: the offset of the last `c` in `s`, `none` for `NULL`. -/
def rindex : List Char → Char → Option Nat
  | [], _ => none
  | x :: xs, c =>
    match rindex xs c with
    | some i => some (i + 1)
    | none => if x = c then some 0 else none

/-- The function `find_pdev_by_pci_name`. -/
def find_pdev_by_pci_name (s : List Char) : Option pci_dev :=
  let r := parse_pci_name s 0 0 0 0
  if r.1 ≠ 0 then none
  else some (pci_get_dev r.2.1 r.2.2.1 r.2.2.2.1 r.2.2.2.2)

/-- The function `find_physfn`. When `rindex` returns `NULL`, `c++` and the `sscanf` on it
dereference address 1: a fault. -/
def find_physfn (h : host) (p : pci_dev) : Result (Option pci_dev) :=
  match read_pci_sysfs_physfn h PATH_MAX p with
  | none => Result.ok none
  | some bytes =>
    match c_string PATH_MAX bytes with
    | none => Result.fault
    | some path =>
      match rindex path '/' with
      | none => Result.fault
      | some i => Result.ok (find_pdev_by_pci_name (path.drop (i + 1)))

/-- The function `find_parent`. When the first `rindex` returns `NULL`, `*c = 0` writes
through `NULL`; when the second does, `c++` and the `sscanf` on it dereference address 1. -/
def find_parent (h : host) (p : pci_dev) : Result (Option pci_dev) :=
  match find_physfn h p with
  | Result.fault => Result.fault
  | Result.timeout => Result.timeout
  | Result.ok (some pdev) => Result.ok (some pdev)
  | Result.ok none =>
    match read_pci_sysfs_path h PATH_MAX p with
    | none => Result.ok none
    | some bytes =>
      match c_string PATH_MAX bytes with
      | none => Result.fault
      | some path =>
        match rindex path '/' with
        | none => Result.fault
        | some i =>
          match rindex (path.take i) '/' with
          | none => Result.fault
          | some j => Result.ok (find_pdev_by_pci_name ((path.take i).drop (j + 1)))

/-- The function `is_same_pci` (with `pci_domain_nr` reading the `domain` field). -/
def is_same_pci (a b : pci_dev) : Bool :=
  a.domain = b.domain && a.bus = b.bus && a.dev = b.dev && a.func = b.func

/-! ## Slot resolution -/

/-- A non-`NULL` routing table, seen through `pirq_pci_dev_to_slot(table, bus, dev)`
(pirq.c, not among the sources): the slot of the entry for `(bus, dev)`, or `INT_MAX` when
the table has no entry for it. -/
abbrev routing_table := Nat → Nat → Int

/-- The `while (rc == INT_MAX)` loop of `pci_dev_to_slot`, with fuel for its iterations. -/
def pci_dev_to_slot_loop (h : host) (table : routing_table) : Nat → pci_dev → Int → Result Int
  | 0, _, rc => if rc = INT_MAX then Result.timeout else Result.ok rc
  | fuel + 1, p, rc =>
    if rc = INT_MAX then
      match find_parent h p with
      | Result.fault => Result.fault
      | Result.timeout => Result.timeout
      | Result.ok none => Result.ok rc
      | Result.ok (some q) => pci_dev_to_slot_loop h table fuel q (table q.bus q.dev)
    else Result.ok rc

/-- The function `pci_dev_to_slot`. -/
def pci_dev_to_slot (fuel : Nat) (h : host) (table : routing_table) (p : pci_dev) : Result Int :=
  pci_dev_to_slot_loop h table fuel p (table p.bus p.dev)

/-! ## Device records and the registry -/

/-- The fields of `struct pci_device` (pci.h) that `pci.c` uses. The list node `node` is the
record's membership in `pci_devices` of the state. `vfnode` is the list node that links the
record into a physical function's `vfs` list: `none` when it is linked to itself (as
`INIT_LIST_HEAD` leaves it), `some pf` when it is on the `vfs` list of `pf`. `vfs` is the
list headed by the record's `vfs`, in list order. `num_vfs` and `vf_index` are
`unsigned int`. -/
structure pci_device where
  pci_dev : pci_dev
  physical_slot : Int
  index_in_slot : Nat
  dev_class : Nat
  smbios_type : Nat
  smbios_instance : Nat
  smbios_label : Option (List Char)
  sysfs_index : Nat
  sysfs_label : Option (List Char)
  uses_sysfs : Nat
  vf_index : Nat
  pf : Option Nat
  vfnode : Option Nat
  vfs : List Nat
  is_virtual_function : Nat
  num_vfs : Nat
  deriving DecidableEq

/-- The part of `struct libbiosdevname_state` that `pci.c` uses. `heap` holds the records
allocated so far, a `struct pci_device *` being an index into it; `pci_devices` is the list
headed by `state->pci_devices`, in list order (the order of `list_for_each_entry`). -/
structure libbiosdevname_state where
  heap : List pci_device
  pci_devices : List Nat
  deriving DecidableEq

/-- A record right after `memset(dev, 0, sizeof(*dev))` and the three `INIT_LIST_HEAD`s. -/
def zeroed : pci_device :=
  { pci_dev := { domain := 0, bus := 0, dev := 0, func := 0, class_word := 0 },
    physical_slot := 0, index_in_slot := 0, dev_class := 0, smbios_type := 0,
    smbios_instance := 0, smbios_label := none, sysfs_index := 0, sysfs_label := none,
    uses_sysfs := 0, vf_index := 0, pf := none, vfnode := none, vfs := [],
    is_virtual_function := 0, num_vfs := 0 }

/-- The function `read_pci_sysfs_label`. -/
def read_pci_sysfs_label (h : host) (pdev : pci_dev) : Option (List Char) :=
  h.sysfs_read_file ("/sys/bus/pci/devices/".toList ++ pci_name16 pdev ++ "/label".toList)

/-- The function `read_pci_sysfs_index`: `some index` when it returns 0. -/
def read_pci_sysfs_index (h : host) (pdev : pci_dev) : Option Nat :=
  match h.sysfs_read_file ("/sys/bus/pci/devices/".toList ++ pci_name16 pdev ++ "/index".toList) with
  | none => none
  | some indexstr =>
    if (sscanf indexstr fmt_u).1 = 1 then (sscanf indexstr fmt_u).2.head? else none

/-- The function `fill_pci_dev_sysfs`. -/
def fill_pci_dev_sysfs (h : host) (dev : pci_device) (p : pci_dev) : pci_device :=
  let dev1 :=
    match read_pci_sysfs_index h p with
    | some index => { dev with sysfs_index := index, uses_sysfs := dev.uses_sysfs ||| HAS_SYSFS_INDEX }
    | none => dev
  match read_pci_sysfs_label h p with
  | some label => { dev1 with sysfs_label := some label, uses_sysfs := dev1.uses_sysfs ||| HAS_SYSFS_LABEL }
  | none => dev1

/-- The record `add_pci_dev` builds for `p`, given the slot it resolved. -/
def new_pci_device (h : host) (p : pci_dev) (slot : Int) : pci_device :=
  fill_pci_dev_sysfs h
    { zeroed with pci_dev := p, physical_slot := slot, dev_class := p.class_word % 65536 } p

/-- The slot `add_pci_dev` stores: `PHYSICAL_SLOT_UNKNOWN`, overwritten by `pci_dev_to_slot`
when there is a routing table. -/
def resolve_slot (fuel : Nat) (h : host) (table : Option routing_table) (p : pci_dev) : Result Int :=
  match table with
  | none => Result.ok PHYSICAL_SLOT_UNKNOWN
  | some t => pci_dev_to_slot fuel h t p

/-- The function `add_pci_dev`. `malloc_ok` tells whether its `malloc` succeeds; the new
record gets the next free index of the heap and `list_add` puts it right after the list
head, that is, first in list order. -/
def add_pci_dev (fuel : Nat) (h : host) (table : Option routing_table) (malloc_ok : Bool)
    (state : libbiosdevname_state) (p : pci_dev) : Result libbiosdevname_state :=
  if malloc_ok then
    match resolve_slot fuel h table p with
    | Result.fault => Result.fault
    | Result.timeout => Result.timeout
    | Result.ok slot =>
      Result.ok { heap := state.heap ++ [new_pci_device h p slot],
                  pci_devices := state.heap.length :: state.pci_devices }
  else Result.ok state

/-- The loop of `find_dev_by_pci` (and of `find_pci_device_by_pci_dev` and
`find_pci_dev_by_pci_addr`) over the records of the list. -/
def find_loop (heap : List pci_device) (p : pci_dev) : List Nat → Result (Option Nat)
  | [] => Result.ok none
  | d :: rest =>
    match heap[d]? with
    | none => Result.fault
    | some dev => if is_same_pci p dev.pci_dev then Result.ok (some d) else find_loop heap p rest

/-- The function `find_dev_by_pci`. -/
def find_dev_by_pci (state : libbiosdevname_state) (p : pci_dev) : Result (Option Nat) :=
  find_loop state.heap p state.pci_devices

/-- The function `find_pci_device_by_pci_dev`. -/
def find_pci_device_by_pci_dev (state : libbiosdevname_state) (p : pci_dev) : Result (Option Nat) :=
  find_loop state.heap p state.pci_devices

/-- The function `find_pci_dev_by_pci_addr` (with `HAVE_STRUCT_PCI_DEV_DOMAIN`): the `int`
arguments are stored in the `u8` fields of a local `struct pci_dev`. -/
def find_pci_dev_by_pci_addr (state : libbiosdevname_state) (domain bus device func : Nat) :
    Result (Option Nat) :=
  find_loop state.heap
    { domain := domain, bus := bus % 256, dev := device % 256, func := func % 256, class_word := 0 }
    state.pci_devices

/-- The function `find_dev_by_pci_name`. -/
def find_dev_by_pci_name (state : libbiosdevname_state) (s : List Char) : Result (Option Nat) :=
  let r := parse_pci_name s 0 0 0 0
  if r.1 ≠ 0 then Result.ok none
  else find_pci_dev_by_pci_addr state r.2.1 r.2.2.1 r.2.2.2.1 r.2.2.2.2

/-! ## Linking virtual functions to physical functions -/

/-- A store through the pointer `ptr`: the record it points to is replaced by `f` of it. -/
def upd (heap : List pci_device) (ptr : Nat) (f : pci_device → pci_device) : List pci_device :=
  match heap[ptr]? with
  | some r => heap.set ptr (f r)
  | none => heap

/-- A read of `pf->num_vfs`. -/
def num_vfs_of (heap : List pci_device) (pf : Nat) : Nat :=
  match heap[pf]? with
  | some r => r.num_vfs
  | none => 0

/-- The four statements of `add_vf_to_pf` under `if (is_same_pci(...))`, on the heap:
`list_add_tail(&vf->vfnode, &pf->vfs)` (the node goes last on the list of `pf`),
`vf->vf_index = pf->num_vfs`, `pf->num_vfs++`, `vf->pf = pf`. -/
def attach (heap : List pci_device) (pf vf : Nat) : List pci_device :=
  let heap1 := upd heap pf (fun r => { r with vfs := r.vfs ++ [vf] })
  let heap2 := upd heap1 vf (fun r => { r with vfnode := some pf })
  let heap3 := upd heap2 vf (fun r => { r with vf_index := num_vfs_of heap2 pf })
  let heap4 := upd heap3 pf (fun r => { r with num_vfs := (r.num_vfs + 1) % 2 ^ 32 })
  upd heap4 vf (fun r => { r with pf := some pf })

/-- The function `add_vf_to_pf`, for the records `pf` and `vf` point to; `pf` is read only
when `vf` has a physical function. A `list_add_tail` of a node that is already on a list
would leave that list broken, which is a fault here. -/
def add_vf_to_pf (h : host) (state : libbiosdevname_state) (pf vf : Nat) :
    Result libbiosdevname_state :=
  match state.heap[vf]? with
  | none => Result.fault
  | some vfrec =>
    match find_physfn h vfrec.pci_dev with
    | Result.fault => Result.fault
    | Result.timeout => Result.timeout
    | Result.ok none => Result.ok state
    | Result.ok (some pfdev) =>
      match state.heap[pf]? with
      | none => Result.fault
      | some pfrec =>
        if is_same_pci pfrec.pci_dev pfdev then
          if vfrec.vfnode = none then
            Result.ok { state with
              heap := attach (upd state.heap vf (fun r => { r with is_virtual_function := 1 })) pf vf }
          else Result.fault
        else
          Result.ok { state with
            heap := upd state.heap vf (fun r => { r with is_virtual_function := 1 }) }

/-- A sequence of `add_vf_to_pf` calls, one for each `(pf, vf)` pair of the list, in order. -/
def run_links (h : host) : List (Nat × Nat) → libbiosdevname_state → Result libbiosdevname_state
  | [], state => Result.ok state
  | (pf, vf) :: rest, state =>
    match add_vf_to_pf h state pf vf with
    | Result.ok state1 => run_links h rest state1
    | Result.fault => Result.fault
    | Result.timeout => Result.timeout

/-- The inner `list_for_each_entry(vfdev, ...)` loop of the second pass, for one `pfdev`. -/
def link_row (h : host) (pf : Nat) : List Nat → libbiosdevname_state → Result libbiosdevname_state
  | [], state => Result.ok state
  | vf :: rest, state =>
    match add_vf_to_pf h state pf vf with
    | Result.ok state1 => link_row h pf rest state1
    | Result.fault => Result.fault
    | Result.timeout => Result.timeout

/-- The outer `list_for_each_entry(pfdev, ...)` loop of the second pass; `all` is the list
the inner loop walks. -/
def link_rows (h : host) (all : List Nat) : List Nat → libbiosdevname_state → Result libbiosdevname_state
  | [], state => Result.ok state
  | pf :: rest, state =>
    match link_row h pf all state with
    | Result.ok state1 => link_rows h all rest state1
    | Result.fault => Result.fault
    | Result.timeout => Result.timeout

/-- The second pass of `get_pci_devices`. The pass does not touch the `node` links, so both
loops walk the list as it is when the pass starts. -/
def link_all (h : host) (state : libbiosdevname_state) : Result libbiosdevname_state :=
  link_rows h state.pci_devices state.pci_devices state

/-- The `(pfdev, vfdev)` pairs of the second pass, in the order the nested loops visit them. -/
def link_pairs (l : List Nat) : List (Nat × Nat) :=
  (l.map (fun pf => l.map (fun vf => (pf, vf)))).flatten

/-! ## The enumeration driver -/

/-- The part of `struct pci_access` (libpci) that `pci.c` uses: the scanned devices, in the
order of the `next` links from `pacc->devices`. -/
structure pci_access where
  devices : List pci_dev
  deriving DecidableEq

/-- The first loop of `get_pci_devices`, over the scanned devices from position `i` on.
`malloc_ok i` tells whether the `malloc` made for the device at position `i` succeeds. -/
def populate (fuel : Nat) (h : host) (table : Option routing_table) (malloc_ok : Nat → Bool) :
    List pci_dev → Nat → libbiosdevname_state → Result libbiosdevname_state
  | [], _, state => Result.ok state
  | p :: rest, i, state =>
    match find_dev_by_pci state p with
    | Result.fault => Result.fault
    | Result.timeout => Result.timeout
    | Result.ok (some _) => populate fuel h table malloc_ok rest (i + 1) state
    | Result.ok none =>
      match add_pci_dev fuel h table (malloc_ok i) state p with
      | Result.ok state1 => populate fuel h table malloc_ok rest (i + 1) state1
      | Result.fault => Result.fault
      | Result.timeout => Result.timeout

/-- The function `get_pci_devices`: its return value and the state it leaves. `pacc` is
what `pci_alloc`, `pci_init` and `pci_scan_bus` produce (`none` when `pci_alloc` returns
`NULL`), `table` what `pirq_alloc_read_table` returns. -/
def get_pci_devices (fuel : Nat) (h : host) (pacc : Option pci_access)
    (table : Option routing_table) (malloc_ok : Nat → Bool) (state : libbiosdevname_state) :
    Result (Int × libbiosdevname_state) :=
  match pacc with
  | none => Result.ok (0, state)
  | some pacc =>
    match populate fuel h table malloc_ok pacc.devices 0 state with
    | Result.fault => Result.fault
    | Result.timeout => Result.timeout
    | Result.ok state1 =>
      match link_all h state1 with
      | Result.fault => Result.fault
      | Result.timeout => Result.timeout
      | Result.ok state2 => Result.ok (0, state2)

/-- The records of the registry in the order `list_for_each_entry` visits them. -/
def registry (state : libbiosdevname_state) : List pci_device :=
  state.pci_devices.filterMap (fun d => state.heap[d]?)

/-! ## SMBIOS type names -/

/-- The table `msg` of `unparse_smbios_type41_type`. -/
def smbios_msg : List String :=
  ["Other", "Unknown", "Video", "SCSI Controller", "Ethernet", "Token Ring", "Sound",
   "PATA Controller", "SATA Controller", "SAS Controller"]

/-- The function `unparse_smbios_type41_type`: the characters stored and the return value.
`ptr_size` is `sizeof(char *)`, so that `sizeof(msg)` is `10 * ptr_size`; a read of `msg`
past its ten entries is a fault. -/
def unparse_smbios_type41_type (ptr_size : Nat) (size : Nat) (type : Int) :
    Result (List Char × Nat) :=
  if type > 0 ∧ type ≤ ((smbios_msg.length * ptr_size : Nat) : Int) then
    match smbios_msg[(type - 1).toNat]? with
    | some m => Result.ok (snprintf size (m.toList ++ ['\n']))
    | none => Result.fault
  else Result.ok (snprintf size "<OUT OF SPEC>\n".toList)

/-! ## Notions used to state the properties -/

/-- A lowercase hexadecimal digit character: `0`..`9` or `a`..`f`. -/
def is_lower_hex (c : Char) : Bool :=
  (48 ≤ c.toNat && c.toNat ≤ 57) || (97 ≤ c.toNat && c.toNat ≤ 102)

/-- Text of the legacy form `bb:dd.f` of an address: the format `"%02x:%02x.%x"`. -/
def legacy_name_text (bus dev func : Nat) : List Char :=
  (x_digits_pad 2 bus).map hex_digit ++ ':' ::
  ((x_digits_pad 2 dev).map hex_digit ++ '.' :: (x_digits func).map hex_digit)

/-- The PCI address of a handle: the four fields that `is_same_pci` compares. -/
def address (p : pci_dev) : Nat × Nat × Nat × Nat := (p.domain, p.bus, p.dev, p.func)

/-- The state before the first call of `get_pci_devices`: nothing allocated, an empty list. -/
def empty_state : libbiosdevname_state := { heap := [], pci_devices := [] }

/-- What `add_vf_to_pf` makes of the record `r` at pointer `q` when it attaches `vf` to
`pf`; `n` is `pf->num_vfs` before the call. -/
def linked (pf vf n q : Nat) (r : pci_device) : pci_device :=
  { r with
    is_virtual_function := if q = vf then 1 else r.is_virtual_function,
    vfs := if q = pf then r.vfs ++ [vf] else r.vfs,
    vfnode := if q = vf then some pf else r.vfnode,
    vf_index := if q = vf then n else r.vf_index,
    num_vfs := if q = pf then (r.num_vfs + 1) % 2 ^ 32 else r.num_vfs,
    pf := if q = vf then some pf else r.pf }

/-- What `add_vf_to_pf` makes of the record `r` at pointer `q` when `vf` has a physical
function that is not `pf`. -/
def marked (vf q : Nat) (r : pci_device) : pci_device :=
  { r with is_virtual_function := if q = vf then 1 else r.is_virtual_function }

/-- Every virtual-function list is free of repetitions, and each of its members is a record
whose `vfnode` is linked into that very list. -/
def vfs_owned (heap : List pci_device) : Prop :=
  ∀ (q : Nat) (r : pci_device), heap[q]? = some r →
    r.vfs.Nodup ∧ ∀ v ∈ r.vfs, ∃ rv : pci_device, heap[v]? = some rv ∧ rv.vfnode = some q

/-- For every record, `num_vfs` is the length of its virtual-function list, and the member
at position `k` of the list has `vf_index` equal to `k`. -/
def vfs_counted (heap : List pci_device) : Prop :=
  ∀ (q : Nat) (r : pci_device), heap[q]? = some r →
    r.num_vfs = r.vfs.length ∧
    ∀ (k v : Nat), r.vfs[k]? = some v → ∃ rv : pci_device, heap[v]? = some rv ∧ rv.vf_index = k

/-- The `k`-th member of the chain `p, find_parent p, find_parent (find_parent p), ...`;
`none` when `find_parent` returned `NULL` (or did not return) before the chain got there. -/
def ancestor (h : host) : Nat → pci_dev → Option pci_dev
  | 0, p => some p
  | k + 1, p =>
    match find_parent h p with
    | Result.ok (some q) => ancestor h k q
    | _ => none

/-- A host with a single readable link: the device path of `0000:05:17.4`, which ends in
`/0000:00:09.0/0000:05:17.4`. -/
def bridge_host : host :=
  { readlink := fun path =>
      if path = "/sys/bus/pci/devices/0000:05:17.4".toList then
        some "../../../devices/pci0000:00/0000:00:09.0/0000:05:17.4".toList
      else none,
    sysfs_read_file := fun _ => none }

/-- A routing table whose only entry maps bus `0x00`, device `0x09` to slot 3. -/
def bridge_table : routing_table :=
  fun bus dev => if bus = 0 ∧ dev = 9 then 3 else INT_MAX

/-- A host with a single readable link: the `physfn` link of `0000:06:00.1`, which points
to `../0000:06:00.0`. -/
def sriov_host : host :=
  { readlink := fun path =>
      if path = "/sys/bus/pci/devices/0000:06:00.1/physfn".toList then
        some "../0000:06:00.0".toList
      else none,
    sysfs_read_file := fun _ => none }

/-- The registry after the population pass over the scan `0000:06:00.0`, `0000:06:00.1`
with no routing table: two fresh records, the newest first in the list. -/
def sriov_state : libbiosdevname_state :=
  { heap := [new_pci_device sriov_host ⟨0, 6, 0, 0, 0x200⟩ INT_MAX,
             new_pci_device sriov_host ⟨0, 6, 0, 1, 0x200⟩ INT_MAX],
    pci_devices := [1, 0] }

/-- A host whose links have too few path segments: the device path of `0000:05:17.4` has
no `/`, the device path of `0000:05:17.5` has a single `/`, and the `physfn` link of
`0000:06:00.1` has no `/`. -/
def short_path_host : host :=
  { readlink := fun path =>
      if path = "/sys/bus/pci/devices/0000:05:17.4".toList then
        some "0000:05:17.4".toList
      else if path = "/sys/bus/pci/devices/0000:05:17.5".toList then
        some "0000:00:09.0/0000:05:17.5".toList
      else if path = "/sys/bus/pci/devices/0000:06:00.1/physfn".toList then
        some "0000:06:00.0".toList
      else none,
    sysfs_read_file := fun _ => none }

/-- A host whose sysfs has an `index` file for `0000:06:00.0` and no `label` file. -/
def index_host : host :=
  { readlink := fun _ => none,
    sysfs_read_file := fun path =>
      if path = "/sys/bus/pci/devices/0000:06:00.0/index".toList then some "3\n".toList
      else none }

/-- A host whose sysfs has both an `index` and a `label` file for `0000:06:00.0`. -/
def labelled_host : host :=
  { readlink := fun _ => none,
    sysfs_read_file := fun path =>
      if path = "/sys/bus/pci/devices/0000:06:00.0/index".toList then some "3\n".toList
      else if path = "/sys/bus/pci/devices/0000:06:00.0/label".toList then some "NIC1\n".toList
      else none }

/-- A host where `0000:06:00.1` has both a `physfn` link, to `../0000:06:00.0`, and a
device path, which ends in `/0000:00:1c.0/0000:06:00.1`. -/
def vf_bridge_host : host :=
  { readlink := fun path =>
      if path = "/sys/bus/pci/devices/0000:06:00.1/physfn".toList then
        some "../0000:06:00.0".toList
      else if path = "/sys/bus/pci/devices/0000:06:00.1".toList then
        some "../../../devices/pci0000:00/0000:00:1c.0/0000:06:00.1".toList
      else none,
    sysfs_read_file := fun _ => none }

/-- A registry of two fresh records, `0000:06:00.2` and `0000:06:00.1`, for use with
`sriov_host`: the physical function `0000:06:00.0` of the second is not in the registry. -/
def orphan_vf_state : libbiosdevname_state :=
  { heap := [new_pci_device sriov_host ⟨0, 6, 0, 2, 0x200⟩ INT_MAX,
             new_pci_device sriov_host ⟨0, 6, 0, 1, 0x200⟩ INT_MAX],
    pci_devices := [1, 0] }

/-! ## Theorems -/

theorem digit_value_hex_digit (d : Nat) (h : d < 16) : digit_value (hex_digit d) = some d := by
  interval_cases d <;> rfl

theorem digit_in_hex_digit (d : Nat) (h : d < 16) : digit_in 16 (hex_digit d) = some d := by
  simp [digit_in, digit_value_hex_digit d h, h]

theorem isspace_hex_digit (d : Nat) (h : d < 16) : isspace (hex_digit d) = false := by
  interval_cases d <;> rfl

theorem hex_digit_not_sign (d : Nat) (h : d < 16) :
    hex_digit d ≠ '-' ∧ hex_digit d ≠ '+' ∧ hex_digit d ≠ 'x' ∧ hex_digit d ≠ 'X' := by
  interval_cases d <;> decide

theorem hex_digit_eq_zero (d : Nat) (h : d < 16) : hex_digit d = '0' ↔ d = 0 := by
  interval_cases d <;> decide

theorem scan_digits_cons (base : Nat) (w : Option Nat) (c : Char) (cs : List Char) :
    scan_digits base w (c :: cs) =
      if w = some 0 then ([], c :: cs)
      else
        match digit_in base c with
        | none => ([], c :: cs)
        | some d => ((d :: (scan_digits base (dec_width w) cs).1), (scan_digits base (dec_width w) cs).2) := rfl

theorem scan_lead_zero (base : Nat) (w : Option Nat) (cs : List Char) (hw : w ≠ some 0) :
    scan_lead base w ('0' :: cs) =
      match cs with
      | [] => ([0], dec_width w, [])
      | x :: t =>
        if dec_width w ≠ some 0 ∧ (x = 'x' ∨ x = 'X') ∧ base = 16 then
          ([0], dec_width (dec_width w), t)
        else ([0], dec_width w, x :: t) := by
  simp only [scan_lead]
  rw [if_pos ⟨hw, trivial⟩]

theorem scan_lead_nonzero (base : Nat) (w : Option Nat) (c : Char) (cs : List Char)
    (hc : c ≠ '0') : scan_lead base w (c :: cs) = ([], w, c :: cs) := by
  simp only [scan_lead]
  rw [if_neg (fun h => hc h.2)]

theorem scan_digits_hex (ds : List Nat) (hds : ∀ d ∈ ds, d < 16) (rest : List Char)
    (hrest : ∀ c cs, rest = c :: cs → digit_in 16 c = none) :
    ∀ w : Option Nat, (w = none ∨ w = some ds.length) →
      scan_digits 16 w (ds.map hex_digit ++ rest) = (ds, rest) := by
  induction ds with
  | nil =>
    intro w _
    cases rest with
    | nil => simp [scan_digits]
    | cons c cs =>
      simp only [List.map_nil, List.nil_append, scan_digits_cons]
      split
      · rfl
      · rw [hrest c cs rfl]
  | cons d ds ih =>
    intro w hw
    have hd : d < 16 := hds d (List.mem_cons_self _ _)
    have hw0 : w ≠ some 0 := by
      rcases hw with h | h <;> simp [h]
    have hdec : dec_width w = none ∨ dec_width w = some ds.length := by
      rcases hw with h | h <;> simp [h, dec_width]
    have ih' := ih (fun x hx => hds x (List.mem_cons_of_mem _ hx)) (dec_width w) hdec
    rw [List.map_cons, List.cons_append, scan_digits_cons, if_neg hw0, digit_in_hex_digit d hd]
    simp only [ih']

theorem scan_lead_hex (ds : List Nat) (hne : ds ≠ []) (hds : ∀ d ∈ ds, d < 16) (rest : List Char)
    (hrest : ∀ c cs, rest = c :: cs → digit_in 16 c = none ∧ c ≠ 'x' ∧ c ≠ 'X')
    (w : Option Nat) (hw : w = none ∨ w = some ds.length) :
    (scan_lead 16 w (ds.map hex_digit ++ rest)).1 ++
      (scan_digits 16 (scan_lead 16 w (ds.map hex_digit ++ rest)).2.1
        (scan_lead 16 w (ds.map hex_digit ++ rest)).2.2).1 = ds ∧
    (scan_digits 16 (scan_lead 16 w (ds.map hex_digit ++ rest)).2.1
        (scan_lead 16 w (ds.map hex_digit ++ rest)).2.2).2 = rest := by
  have hrest' : ∀ c cs, rest = c :: cs → digit_in 16 c = none := fun c cs h => (hrest c cs h).1
  cases ds with
  | nil => exact absurd rfl hne
  | cons d ds =>
    have hd : d < 16 := hds d (List.mem_cons_self _ _)
    have hds' : ∀ x ∈ ds, x < 16 := fun x hx => hds x (List.mem_cons_of_mem _ hx)
    have hw0 : w ≠ some 0 := by
      rcases hw with h | h <;> simp [h]
    have hdec : dec_width w = none ∨ dec_width w = some ds.length := by
      rcases hw with h | h <;> simp [h, dec_width]
    by_cases hz : d = 0
    · subst hz
      have h0 : hex_digit 0 = '0' := rfl
      have htail := scan_digits_hex ds hds' rest hrest' (dec_width w) hdec
      rw [List.map_cons, List.cons_append, h0, scan_lead_zero 16 w _ hw0]
      cases hcs : ds.map hex_digit ++ rest with
      | nil =>
        rw [hcs] at htail
        simp only [htail, List.singleton_append, and_self]
      | cons x t =>
        have hx : x ≠ 'x' ∧ x ≠ 'X' := by
          cases ds with
          | nil =>
            simp only [List.map_nil, List.nil_append] at hcs
            exact (hrest x t hcs).2
          | cons e es =>
            simp only [List.map_cons, List.cons_append, List.cons.injEq] at hcs
            have he := hex_digit_not_sign e (hds' e (List.mem_cons_self _ _))
            rw [← hcs.1]
            exact ⟨he.2.2.1, he.2.2.2⟩
        rw [hcs] at htail
        have hnot : ¬ (dec_width w ≠ some 0 ∧ (x = 'x' ∨ x = 'X') ∧ True) := by
          rintro ⟨_, h | h, _⟩
          · exact hx.1 h
          · exact hx.2 h
        simp only [if_neg hnot, htail, List.singleton_append, and_self]
    · have hnz : hex_digit d ≠ '0' := fun h => hz ((hex_digit_eq_zero d hd).1 h)
      have hall := scan_digits_hex (d :: ds) hds rest hrest' w hw
      rw [List.map_cons, List.cons_append] at hall
      rw [List.map_cons, List.cons_append, scan_lead_nonzero 16 w _ _ hnz]
      simp only [hall, List.nil_append, and_self]

theorem scan_signed_plain (base : Nat) (w : Option Nat) (c : Char) (cs : List Char)
    (h1 : c ≠ '-') (h2 : c ≠ '+') :
    scan_signed base w c cs =
      if (scan_lead base w (c :: cs)).1 ++
          (scan_digits base (scan_lead base w (c :: cs)).2.1 (scan_lead base w (c :: cs)).2.2).1 = []
      then scan_result.mismatch
      else scan_result.value
        (strtoul false base ((scan_lead base w (c :: cs)).1 ++
          (scan_digits base (scan_lead base w (c :: cs)).2.1 (scan_lead base w (c :: cs)).2.2).1)
          % 2 ^ 32)
        (scan_digits base (scan_lead base w (c :: cs)).2.1 (scan_lead base w (c :: cs)).2.2).2 := by
  simp [scan_signed, h1, h2]

/-- A hexadecimal field of digits `ds` followed by `rest` converts to the value of `ds`. -/
theorem scan_number_hex (ds : List Nat) (hne : ds ≠ []) (hds : ∀ d ∈ ds, d < 16)
    (hval : digits_value 16 ds < 2 ^ 32) (rest : List Char)
    (hrest : ∀ c cs, rest = c :: cs → digit_in 16 c = none ∧ c ≠ 'x' ∧ c ≠ 'X')
    (w : Option Nat) (hw : w = none ∨ w = some ds.length) :
    scan_number 16 w (ds.map hex_digit ++ rest) = scan_result.value (digits_value 16 ds) rest := by
  obtain ⟨d, ds', rfl⟩ := List.exists_cons_of_ne_nil hne
  have hd : d < 16 := hds d (List.mem_cons_self _ _)
  have hlead := scan_lead_hex (d :: ds') hne hds rest hrest w hw
  rw [List.map_cons, List.cons_append] at hlead
  have hsp : List.dropWhile isspace (hex_digit d :: (ds'.map hex_digit ++ rest)) =
      hex_digit d :: (ds'.map hex_digit ++ rest) := by
    rw [List.dropWhile_cons, isspace_hex_digit d hd]; rfl
  have hs := hex_digit_not_sign d hd
  have hv : strtoul false 16 (d :: ds') = digits_value 16 (d :: ds') := by
    unfold strtoul ULONG_MAX
    rw [if_neg (by omega)]
    simp
  rw [List.map_cons, List.cons_append]
  unfold scan_number
  rw [hsp]
  simp only []
  rw [scan_signed_plain 16 w _ _ hs.1 hs.2.1, hlead.1, hlead.2, if_neg hne, hv,
    Nat.mod_eq_of_lt hval]

theorem digits_value_append (base : Nat) (l : List Nat) (d : Nat) :
    digits_value base (l ++ [d]) = digits_value base l * base + d := by
  simp [digits_value, List.foldl_append]

theorem digits_value_zeros (base k : Nat) (ds : List Nat) :
    digits_value base (List.replicate k 0 ++ ds) = digits_value base ds := by
  have h : ∀ k, List.foldl (fun acc d => acc * base + d) 0 (List.replicate k 0) = 0 := by
    intro k
    induction k with
    | zero => rfl
    | succ k ih => simp [List.replicate_succ, List.foldl_cons, ih]
  simp [digits_value, List.foldl_append, h]

theorem le_digits_lt : ∀ (fuel n d : Nat), d ∈ le_digits fuel n → d < 16 := by
  intro fuel
  induction fuel with
  | zero => intro n d h; simp [le_digits] at h
  | succ fuel ih =>
    intro n d h
    simp only [le_digits, List.mem_cons] at h
    rcases h with h | h
    · omega
    · split at h
      · simp at h
      · exact ih _ _ h

theorem le_digits_ne_nil (fuel n : Nat) : le_digits (fuel + 1) n ≠ [] := by
  simp [le_digits]

theorem le_digits_value : ∀ (fuel n : Nat), n < 16 ^ (fuel + 1) →
    digits_value 16 (le_digits (fuel + 1) n).reverse = n := by
  intro fuel
  induction fuel with
  | zero =>
    intro n h
    have h0 : n / 16 = 0 := by omega
    simp only [le_digits, h0, if_true, List.reverse_cons, List.reverse_nil, List.nil_append]
    simp [digits_value]
    omega
  | succ fuel ih =>
    intro n h
    rw [le_digits]
    by_cases h0 : n / 16 = 0
    · simp only [h0, if_true, List.reverse_cons, List.reverse_nil, List.nil_append]
      simp [digits_value]
      omega
    · have hlt : n / 16 < 16 ^ (fuel + 1) := by
        rw [Nat.div_lt_iff_lt_mul (by norm_num)]
        calc n < 16 ^ (fuel + 1 + 1) := h
          _ = 16 ^ (fuel + 1) * 16 := by ring
      rw [if_neg h0, List.reverse_cons, digits_value_append, ih _ hlt]
      omega

theorem le_digits_length : ∀ (k fuel n : Nat), n < 16 ^ (k + 1) →
    (le_digits (fuel + 1) n).length ≤ k + 1 := by
  intro k
  induction k with
  | zero =>
    intro fuel n h
    have h0 : n / 16 = 0 := by omega
    simp [le_digits, h0]
  | succ k ih =>
    intro fuel n h
    rw [le_digits]
    by_cases h0 : n / 16 = 0
    · simp [h0]
    · rw [if_neg h0]
      cases fuel with
      | zero => simp [le_digits]
      | succ fuel =>
        have hlt : n / 16 < 16 ^ (k + 1) := by
          rw [Nat.div_lt_iff_lt_mul (by norm_num)]
          calc n < 16 ^ (k + 1 + 1) := h
            _ = 16 ^ (k + 1) * 16 := by ring
        have := ih fuel _ hlt
        simp only [List.length_cons]
        omega

theorem x_digits_lt (n d : Nat) (h : d ∈ x_digits n) : d < 16 := by
  unfold x_digits at h
  exact le_digits_lt _ _ _ (List.mem_reverse.1 h)

theorem x_digits_ne_nil (n : Nat) : x_digits n ≠ [] := by
  unfold x_digits
  simp [le_digits]

theorem x_digits_value (n : Nat) : digits_value 16 (x_digits n) = n % 2 ^ 32 := by
  unfold x_digits
  exact le_digits_value 7 _ (by have := Nat.mod_lt n (show 0 < 2 ^ 32 by norm_num); omega)

theorem x_digits_length_le (k n : Nat) (h : n < 16 ^ (k + 1)) : (x_digits n).length ≤ k + 1 := by
  unfold x_digits
  rw [List.length_reverse]
  have h2 : n % 2 ^ 32 < 16 ^ (k + 1) := lt_of_le_of_lt (Nat.mod_le _ _) h
  exact le_digits_length k 7 _ h2

theorem x_digits_pad_lt (w n d : Nat) (h : d ∈ x_digits_pad w n) : d < 16 := by
  unfold x_digits_pad at h
  rcases List.mem_append.1 h with h | h
  · rw [(List.mem_replicate.1 h).2]; norm_num
  · exact x_digits_lt n d h

theorem x_digits_pad_ne_nil (w n : Nat) : x_digits_pad w n ≠ [] := by
  unfold x_digits_pad
  simp [x_digits_ne_nil]

theorem x_digits_pad_value (w n : Nat) : digits_value 16 (x_digits_pad w n) = n % 2 ^ 32 := by
  unfold x_digits_pad
  rw [digits_value_zeros, x_digits_value]

theorem x_digits_pad_length (w n : Nat) :
    (x_digits_pad w n).length = max w (x_digits n).length := by
  unfold x_digits_pad
  simp only [List.length_append, List.length_replicate]
  omega

theorem x_digits_pad_two (n : Nat) (h : n < 256) : (x_digits_pad 2 n).length = 2 := by
  rw [x_digits_pad_length]
  have := x_digits_length_le 1 n (by norm_num; omega)
  omega

theorem field_end (c : Char) (hc : c = ':' ∨ c = '.') (rest t : List Char) (c' : Char)
    (h : c :: rest = c' :: t) : digit_in 16 c' = none ∧ c' ≠ 'x' ∧ c' ≠ 'X' := by
  simp only [List.cons.injEq] at h
  rw [← h.1]
  rcases hc with rfl | rfl <;> decide

/-- The first `sscanf` of `parse_pci_name` converts all four fields of a text written by
the format of `unparse_pci_name`. -/
theorem sscanf_full_pci_name_text (a : pci_dev) (hdom : a.domain < 2 ^ 32) (hbus : a.bus < 256)
    (hdev : a.dev < 256) (hfunc : a.func < 2 ^ 32) :
    sscanf (pci_name_text a) fmt_full = (4, [a.domain, a.bus, a.dev, a.func]) := by
  unfold sscanf pci_name_text fmt_full
  have e1 := scan_number_hex (x_digits_pad 4 a.domain) (x_digits_pad_ne_nil _ _)
    (x_digits_pad_lt _ _) (by rw [x_digits_pad_value]; exact Nat.mod_lt _ (by norm_num))
    (':' :: ((x_digits_pad 2 a.bus).map hex_digit ++ ':' ::
      ((x_digits_pad 2 a.dev).map hex_digit ++ '.' :: (x_digits a.func).map hex_digit)))
    (fun c cs h => field_end ':' (Or.inl rfl) _ cs c h) none (Or.inl rfl)
  have e2 := scan_number_hex (x_digits_pad 2 a.bus) (x_digits_pad_ne_nil _ _)
    (x_digits_pad_lt _ _) (by rw [x_digits_pad_value]; exact Nat.mod_lt _ (by norm_num))
    (':' :: ((x_digits_pad 2 a.dev).map hex_digit ++ '.' :: (x_digits a.func).map hex_digit))
    (fun c cs h => field_end ':' (Or.inl rfl) _ cs c h) (some 2)
    (Or.inr (by rw [x_digits_pad_two _ hbus]))
  have e3 := scan_number_hex (x_digits_pad 2 a.dev) (x_digits_pad_ne_nil _ _)
    (x_digits_pad_lt _ _) (by rw [x_digits_pad_value]; exact Nat.mod_lt _ (by norm_num))
    ('.' :: (x_digits a.func).map hex_digit)
    (fun c cs h => field_end '.' (Or.inr rfl) _ cs c h) (some 2)
    (Or.inr (by rw [x_digits_pad_two _ hdev]))
  have e4 := scan_number_hex (x_digits a.func) (x_digits_ne_nil _)
    (x_digits_lt _) (by rw [x_digits_value]; exact Nat.mod_lt _ (by norm_num))
    [] (fun c cs h => by simp at h) none (Or.inl rfl)
  rw [List.append_nil] at e4
  rw [x_digits_pad_value, Nat.mod_eq_of_lt hdom] at e1
  rw [x_digits_pad_value, Nat.mod_eq_of_lt (by omega : a.bus < 2 ^ 32)] at e2
  rw [x_digits_pad_value, Nat.mod_eq_of_lt (by omega : a.dev < 2 ^ 32)] at e3
  rw [x_digits_value, Nat.mod_eq_of_lt hfunc] at e4
  simp only [sscanf_run, e1, e2, e3, e4, if_true, List.nil_append, List.cons_append,
    List.length_cons, List.length_nil]
  rfl

theorem parse_pci_name_text (a : pci_dev) (hdom : a.domain < 2 ^ 32) (hbus : a.bus < 256)
    (hdev : a.dev < 256) (hfunc : a.func < 2 ^ 32) (domain bus dev func : Nat) :
    parse_pci_name (pci_name_text a) domain bus dev func = (0, a.domain, a.bus, a.dev, a.func) := by
  unfold parse_pci_name
  rw [sscanf_full_pci_name_text a hdom hbus hdev hfunc]
  simp

theorem take_of_length_lt (size : Nat) (l : List Char) (h : l.length < size) :
    l.take (size - 1) = l := List.take_of_length_le (by omega)

/-- C1 (round trip of the address codec). For every valid PCI address `a` (domain an `int`,
bus 0..255, device 0..31, function 0..7) and every buffer that holds the whole name (the
return value of `unparse_pci_name` is below `size`), `parse_pci_name` on the string that
`unparse_pci_name` produced returns 0 and leaves exactly the four fields of `a` in the
four variables, whatever they held before. -/
theorem round_trip (size : Nat) (a : pci_dev) (hdom : a.domain < 2 ^ 32) (hbus : a.bus < 256)
    (hdev : a.dev < 32) (hfunc : a.func < 8) (hsize : (unparse_pci_name size a).2 < size)
    (domain bus dev func : Nat) :
    parse_pci_name (unparse_pci_name size a).1 domain bus dev func =
      (0, a.domain, a.bus, a.dev, a.func) := by
  have htake : (unparse_pci_name size a).1 = pci_name_text a :=
    take_of_length_lt size _ hsize
  rw [htake]
  exact parse_pci_name_text a hdom hbus (by omega) (by omega) domain bus dev func

/-- Witness for C1: the address `0000:05:17.4` in a 16-byte buffer. -/
theorem round_trip_witness :
    parse_pci_name (unparse_pci_name 16 ⟨0, 5, 0x17, 4, 0⟩).1 7 7 7 7 = (0, 0, 5, 0x17, 4) :=
  round_trip 16 ⟨0, 5, 0x17, 4, 0⟩ (by decide) (by decide) (by decide) (by decide) (by decide)
    7 7 7 7

/-- C2 (dual-grammar equivalence), evaluated on the code: with the four variables pre-set
to 0, the legacy text `05:0a.2` parses to domain 5 (the first `sscanf` stores the bus text
in `domain` before it fails on the `.`), while the full text `0000:05:0a.2` parses to
domain 0; the other three fields agree. -/
theorem legacy_text_domain :
    parse_pci_name "05:0a.2".toList 0 0 0 0 = (0, 5, 5, 10, 2) ∧
    parse_pci_name "0000:05:0a.2".toList 0 0 0 0 = (0, 0, 5, 10, 2) := by
  decide

/-- The slip behind C2, for every legacy text: with the four variables pre-set to 0,
`parse_pci_name` on `bb:dd.f` returns 0 and leaves the bus value in `domain` as well. -/
theorem legacy_text_domain_is_bus (bus dev func : Nat) (hbus : bus < 256) (hdev : dev < 256)
    (hfunc : func < 2 ^ 32) :
    parse_pci_name (legacy_name_text bus dev func) 0 0 0 0 = (0, bus, bus, dev, func) := by
  have e1 := scan_number_hex (x_digits_pad 2 bus) (x_digits_pad_ne_nil _ _)
    (x_digits_pad_lt _ _) (by rw [x_digits_pad_value]; exact Nat.mod_lt _ (by norm_num))
    (':' :: ((x_digits_pad 2 dev).map hex_digit ++ '.' :: (x_digits func).map hex_digit))
    (fun c cs h => field_end ':' (Or.inl rfl) _ cs c h)
  have e2 := scan_number_hex (x_digits_pad 2 dev) (x_digits_pad_ne_nil _ _)
    (x_digits_pad_lt _ _) (by rw [x_digits_pad_value]; exact Nat.mod_lt _ (by norm_num))
    ('.' :: (x_digits func).map hex_digit)
    (fun c cs h => field_end '.' (Or.inr rfl) _ cs c h) (some 2)
    (Or.inr (by rw [x_digits_pad_two _ hdev]))
  have e3 := scan_number_hex (x_digits func) (x_digits_ne_nil _)
    (x_digits_lt _) (by rw [x_digits_value]; exact Nat.mod_lt _ (by norm_num))
    [] (fun c cs h => by simp at h) none (Or.inl rfl)
  have e1n := e1 none (Or.inl rfl)
  have e1w := e1 (some 2) (Or.inr (by rw [x_digits_pad_two _ hbus]))
  rw [List.append_nil] at e3
  rw [x_digits_pad_value, Nat.mod_eq_of_lt (by omega : bus < 2 ^ 32)] at e1n e1w
  rw [x_digits_pad_value, Nat.mod_eq_of_lt (by omega : dev < 2 ^ 32)] at e2
  rw [x_digits_value, Nat.mod_eq_of_lt hfunc] at e3
  have hfull : sscanf (legacy_name_text bus dev func) fmt_full = (2, [bus, dev]) := by
    unfold sscanf legacy_name_text fmt_full
    simp only [sscanf_run, e1n, e2, if_true, List.nil_append, List.cons_append,
      List.length_cons, List.length_nil]
    rfl
  have hlegacy : sscanf (legacy_name_text bus dev func) fmt_legacy = (3, [bus, dev, func]) := by
    unfold sscanf legacy_name_text fmt_legacy
    simp only [sscanf_run, e1w, e2, e3, if_true, List.nil_append, List.cons_append,
      List.length_cons, List.length_nil]
    rfl
  unfold parse_pci_name
  rw [hfull, hlegacy]
  simp

theorem x_digits_pad_four (n : Nat) (h : n < 65536) :
    x_digits_pad 4 n = [n / 4096 % 16, n / 256 % 16, n / 16 % 16, n % 16] := by
  have hm : n % 2 ^ 32 = n := Nat.mod_eq_of_lt (by omega)
  unfold x_digits_pad x_digits
  rw [hm]
  by_cases h1 : n / 16 = 0
  · have e : le_digits 8 n = [n % 16] := by simp [le_digits, h1]
    rw [e]
    simp
    omega
  · by_cases h2 : n / 16 / 16 = 0
    · have e : le_digits 8 n = [n % 16, n / 16 % 16] := by simp [le_digits, h1, h2]
      rw [e]
      simp
      omega
    · by_cases h3 : n / 16 / 16 / 16 = 0
      · have e : le_digits 8 n = [n % 16, n / 16 % 16, n / 16 / 16 % 16] := by
          simp [le_digits, h1, h2, h3]
        rw [e]
        simp
        omega
      · have h4 : n / 16 / 16 / 16 / 16 = 0 := by omega
        have e : le_digits 8 n =
            [n % 16, n / 16 % 16, n / 16 / 16 % 16, n / 16 / 16 / 16 % 16] := by
          simp [le_digits, h1, h2, h3, h4]
        rw [e]
        simp
        omega

theorem x_digits_pad_two_eq (n : Nat) (h : n < 256) : x_digits_pad 2 n = [n / 16, n % 16] := by
  have hm : n % 2 ^ 32 = n := Nat.mod_eq_of_lt (by omega)
  unfold x_digits_pad x_digits
  rw [hm]
  by_cases h1 : n / 16 = 0
  · have e : le_digits 8 n = [n % 16] := by simp [le_digits, h1]
    rw [e]
    simp
    omega
  · have h2 : n / 16 / 16 = 0 := by omega
    have e : le_digits 8 n = [n % 16, n / 16 % 16] := by simp [le_digits, h1, h2]
    rw [e]
    simp
    omega

theorem x_digits_one (n : Nat) (h : n < 16) : x_digits n = [n] := by
  have hm : n % 2 ^ 32 = n := Nat.mod_eq_of_lt (by omega)
  have h1 : n / 16 = 0 := by omega
  unfold x_digits
  rw [hm]
  simp [le_digits, h1]
  omega

theorem is_lower_hex_hex_digit (d : Nat) (h : d < 16) : is_lower_hex (hex_digit d) = true := by
  interval_cases d <;> rfl

/-- C10 (canonical format), as amended. For every valid address whose domain fits four
hexadecimal digits (domain below `0x10000`, bus 0..255, device 0..31, function 0..7) and
every buffer of at least 13 bytes, `unparse_pci_name` stores exactly the 12 characters
`dddd:bb:dd.f`, each digit a lowercase hexadecimal digit of the field it belongs to, and
returns 12. -/
theorem canonical_format (size : Nat) (a : pci_dev) (hsize : 13 ≤ size)
    (hdom : a.domain < 65536) (hbus : a.bus < 256) (hdev : a.dev < 32) (hfunc : a.func < 8) :
    unparse_pci_name size a =
      ([hex_digit (a.domain / 4096 % 16), hex_digit (a.domain / 256 % 16),
        hex_digit (a.domain / 16 % 16), hex_digit (a.domain % 16), ':',
        hex_digit (a.bus / 16), hex_digit (a.bus % 16), ':',
        hex_digit (a.dev / 16), hex_digit (a.dev % 16), '.', hex_digit a.func], 12) ∧
    (unparse_pci_name size a).1.length = 12 ∧
    (∀ i, i < 12 → i ≠ 4 → i ≠ 7 → i ≠ 10 →
      ∃ c, (unparse_pci_name size a).1[i]? = some c ∧ is_lower_hex c = true) := by
  have htext : pci_name_text a =
      [hex_digit (a.domain / 4096 % 16), hex_digit (a.domain / 256 % 16),
        hex_digit (a.domain / 16 % 16), hex_digit (a.domain % 16), ':',
        hex_digit (a.bus / 16), hex_digit (a.bus % 16), ':',
        hex_digit (a.dev / 16), hex_digit (a.dev % 16), '.', hex_digit a.func] := by
    unfold pci_name_text
    rw [x_digits_pad_four _ hdom, x_digits_pad_two_eq _ hbus,
      x_digits_pad_two_eq _ (by omega : a.dev < 256), x_digits_one _ (by omega : a.func < 16)]
    rfl
  have hun : unparse_pci_name size a = (pci_name_text a, 12) := by
    unfold unparse_pci_name snprintf
    rw [List.take_of_length_le (by rw [htext]; simp; omega)]
    rw [htext]
    rfl
  rw [hun, htext]
  refine ⟨rfl, rfl, ?_⟩
  intro i hi h4 h7 h10
  have hx : ∀ d, d < 16 → is_lower_hex (hex_digit d) = true := is_lower_hex_hex_digit
  interval_cases i
  · exact ⟨_, rfl, hx _ (Nat.mod_lt _ (by norm_num))⟩
  · exact ⟨_, rfl, hx _ (Nat.mod_lt _ (by norm_num))⟩
  · exact ⟨_, rfl, hx _ (Nat.mod_lt _ (by norm_num))⟩
  · exact ⟨_, rfl, hx _ (Nat.mod_lt _ (by norm_num))⟩
  · exact absurd rfl h4
  · exact ⟨_, rfl, hx _ (by omega)⟩
  · exact ⟨_, rfl, hx _ (Nat.mod_lt _ (by norm_num))⟩
  · exact absurd rfl h7
  · exact ⟨_, rfl, hx _ (by omega)⟩
  · exact ⟨_, rfl, hx _ (Nat.mod_lt _ (by norm_num))⟩
  · exact absurd rfl h10
  · exact ⟨_, rfl, hx _ (by omega)⟩

/-- Witness for C10: `0000:05:17.4` in a 16-byte buffer. -/
theorem canonical_format_witness :
    unparse_pci_name 16 ⟨0, 5, 0x17, 4, 0⟩ = ("0000:05:17.4".toList, 12) :=
  (canonical_format 16 ⟨0, 5, 0x17, 4, 0⟩ (by decide) (by decide) (by decide) (by decide)
    (by decide)).1

/-- C10 as stated fails: domain `0x10000` is a valid `u32` domain, and for it
`unparse_pci_name` emits the 13 characters `10000:00:00.0` and returns 13. -/
theorem canonical_format_wide_domain :
    unparse_pci_name 16 ⟨0x10000, 0, 0, 0, 0⟩ = ("10000:00:00.0".toList, 13) ∧
    (unparse_pci_name 16 ⟨0x10000, 0, 0, 0, 0⟩).1.length ≠ 12 ∧
    (unparse_pci_name 16 ⟨0x10000, 0, 0, 0, 0⟩).2 ≠ 12 := by
  decide

theorem loop_of_entry (h : host) (table : routing_table) (fuel : Nat) (p : pci_dev) (rc : Int)
    (hrc : rc ≠ INT_MAX) : pci_dev_to_slot_loop h table fuel p rc = Result.ok rc := by
  cases fuel with
  | zero => simp [pci_dev_to_slot_loop, hrc]
  | succ fuel => simp [pci_dev_to_slot_loop, hrc]

theorem loop_step (h : host) (table : routing_table) (fuel : Nat) (p q : pci_dev)
    (hq : find_parent h p = Result.ok (some q)) :
    pci_dev_to_slot_loop h table (fuel + 1) p INT_MAX =
      pci_dev_to_slot_loop h table fuel q (table q.bus q.dev) := by
  simp [pci_dev_to_slot_loop, hq]

theorem loop_end (h : host) (table : routing_table) (fuel : Nat) (p : pci_dev)
    (hq : find_parent h p = Result.ok none) :
    pci_dev_to_slot_loop h table (fuel + 1) p INT_MAX = Result.ok INT_MAX := by
  simp [pci_dev_to_slot_loop, hq]

theorem ancestor_succ (h : host) (k : Nat) (p q : pci_dev)
    (hq : find_parent h p = Result.ok (some q)) : ancestor h (k + 1) p = ancestor h k q := by
  simp [ancestor, hq]

theorem ancestor_succ_some (h : host) (k : Nat) (p r : pci_dev)
    (hr : ancestor h (k + 1) p = some r) :
    ∃ q, find_parent h p = Result.ok (some q) ∧ ancestor h k q = some r := by
  unfold ancestor at hr
  split at hr
  · next q hq => exact ⟨q, hq, hr⟩
  · exact absurd hr (by simp)

/-- The loop climbs to the first chain member with an entry. -/
theorem loop_climbs (h : host) (table : routing_table) :
    ∀ (n : Nat) (p r : pci_dev), table p.bus p.dev = INT_MAX → ancestor h n p = some r →
      table r.bus r.dev ≠ INT_MAX →
      (∀ k, k < n → ∀ q, ancestor h k p = some q → table q.bus q.dev = INT_MAX) →
      ∀ fuel, n ≤ fuel →
        pci_dev_to_slot_loop h table fuel p INT_MAX = Result.ok (table r.bus r.dev) := by
  intro n
  induction n with
  | zero =>
    intro p r hp hr hent _ fuel _
    simp only [ancestor, Option.some.injEq] at hr
    subst hr
    exact absurd hp hent
  | succ n ih =>
    intro p r hp hr hent hfirst fuel hfuel
    obtain ⟨q, hq, hqr⟩ := ancestor_succ_some h n p r hr
    obtain ⟨fuel', rfl⟩ : ∃ f, fuel = f + 1 := ⟨fuel - 1, by omega⟩
    rw [loop_step h table fuel' p q hq]
    by_cases hqe : table q.bus q.dev = INT_MAX
    · rw [hqe]
      refine ih q r hqe hqr hent ?_ fuel' (by omega)
      intro k hk s hs
      exact hfirst (k + 1) (by omega) s (by rw [ancestor_succ h k p q hq]; exact hs)
    · have hn : n = 0 := by
        by_contra hn0
        exact hqe (hfirst 1 (by omega) q (by rw [ancestor_succ h 0 p q hq]; rfl))
      subst hn
      simp only [ancestor, Option.some.injEq] at hqr
      subst hqr
      exact loop_of_entry h table fuel' q _ hqe

/-- C3 (slot inheritance). For every device `D` whose (bus, device) has no routing-table
entry: if the chain `D, find_parent D, find_parent (find_parent D), ...` reaches, as its
`n`-th member, a device `P` with a routing-table entry, and no earlier member has one, then
`pci_dev_to_slot D` returns (for every fuel of at least `n` loop iterations) the table's
value for `P`. -/
theorem slot_inheritance (h : host) (table : routing_table) (D P : pci_dev) (n : Nat)
    (hD : table D.bus D.dev = INT_MAX) (hP : ancestor h n D = some P)
    (hentry : table P.bus P.dev ≠ INT_MAX)
    (hfirst : ∀ k, k < n → ∀ Q, ancestor h k D = some Q → table Q.bus Q.dev = INT_MAX)
    (fuel : Nat) (hfuel : n ≤ fuel) :
    pci_dev_to_slot fuel h table D = Result.ok (table P.bus P.dev) := by
  unfold pci_dev_to_slot
  rw [hD]
  exact loop_climbs h table n D P hD hP hentry hfirst fuel hfuel

/-- Witness for C3: the table maps (0x00, 0x09) to 3 and has no entry for
(0x05, 0x17); `0000:05:17.4` has a device path ending in `/0000:00:09.0/0000:05:17.4`;
its slot is 3. -/
theorem slot_inheritance_witness :
    pci_dev_to_slot 1 bridge_host bridge_table ⟨0, 5, 0x17, 4, 0⟩ = Result.ok 3 :=
  slot_inheritance bridge_host bridge_table ⟨0, 5, 0x17, 4, 0⟩ ⟨0, 0, 9, 0, 0⟩ 1
    (by decide) (by decide) (by decide)
    (fun k hk Q hQ => by
      have hk0 : k = 0 := by omega
      subst hk0
      simp only [ancestor, Option.some.injEq] at hQ
      subst hQ
      decide)
    1 (le_refl 1)

/-- On a chain that ends, the loop returns, and returns `INT_MAX` exactly when no member of
the chain has an entry. -/
theorem loop_finite (h : host) (table : routing_table) :
    ∀ (n : Nat) (p q : pci_dev), ancestor h n p = some q → find_parent h q = Result.ok none →
      ∃ rc : Int,
        (∀ fuel, n < fuel → pci_dev_to_slot_loop h table fuel p (table p.bus p.dev) = Result.ok rc) ∧
        (rc = INT_MAX ↔
          ∀ k, k ≤ n → ∀ r, ancestor h k p = some r → table r.bus r.dev = INT_MAX) := by
  intro n
  induction n with
  | zero =>
    intro p q hq hnull
    simp only [ancestor, Option.some.injEq] at hq
    subst hq
    by_cases hp : table p.bus p.dev = INT_MAX
    · refine ⟨INT_MAX, ?_, ?_⟩
      · intro fuel hfuel
        obtain ⟨f, rfl⟩ : ∃ f, fuel = f + 1 := ⟨fuel - 1, by omega⟩
        rw [hp]
        exact loop_end h table f p hnull
      · constructor
        · intro _ k hk r hr
          have hk0 : k = 0 := by omega
          subst hk0
          simp only [ancestor, Option.some.injEq] at hr
          subst hr
          exact hp
        · intro _
          rfl
    · refine ⟨table p.bus p.dev, fun fuel _ => loop_of_entry h table fuel p _ hp, ?_⟩
      constructor
      · intro hrc
        exact absurd hrc hp
      · intro hall
        exact hall 0 (le_refl 0) p rfl
  | succ n ih =>
    intro p q hq hnull
    obtain ⟨p', hp', hq'⟩ := ancestor_succ_some h n p q hq
    by_cases hp : table p.bus p.dev = INT_MAX
    · obtain ⟨rc, hrun, hiff⟩ := ih p' q hq' hnull
      refine ⟨rc, ?_, ?_⟩
      · intro fuel hfuel
        obtain ⟨f, rfl⟩ : ∃ f, fuel = f + 1 := ⟨fuel - 1, by omega⟩
        rw [hp, loop_step h table f p p' hp']
        exact hrun f (by omega)
      · rw [hiff]
        constructor
        · intro hall k hk r hr
          cases k with
          | zero =>
            simp only [ancestor, Option.some.injEq] at hr
            subst hr
            exact hp
          | succ k =>
            rw [ancestor_succ h k p p' hp'] at hr
            exact hall k (by omega) r hr
        · intro hall k hk r hr
          exact hall (k + 1) (by omega) r (by rw [ancestor_succ h k p p' hp']; exact hr)
    · refine ⟨table p.bus p.dev, fun fuel _ => loop_of_entry h table fuel p _ hp, ?_⟩
      constructor
      · intro hrc
        exact absurd hrc hp
      · intro hall
        exact hall 0 (Nat.zero_le _) p rfl

theorem fill_pci_dev_sysfs_physical_slot (h : host) (dev : pci_device) (p : pci_dev) :
    (fill_pci_dev_sysfs h dev p).physical_slot = dev.physical_slot := by
  unfold fill_pci_dev_sysfs
  cases read_pci_sysfs_index h p <;> cases read_pci_sysfs_label h p <;> rfl

theorem new_pci_device_physical_slot (h : host) (p : pci_dev) (slot : Int) :
    (new_pci_device h p slot).physical_slot = slot := by
  unfold new_pci_device
  rw [fill_pci_dev_sysfs_physical_slot]

/-- C4 (unknown slot exactly on an exhausted chain). For every device `D` whose chain under
`find_parent` ends (its `n`-th member `Q` has no parent): `pci_dev_to_slot` returns, for
every fuel above `n`, one value `rc`; `rc` is `INT_MAX` if and only if neither `D` nor any
member of its chain has a routing-table entry; `add_pci_dev` with a routing table stores
`rc` as `physical_slot` of the record it adds, and without a routing table it stores the
unknown sentinel `INT_MAX`. -/
theorem unknown_slot (h : host) (table : routing_table) (D Q : pci_dev) (n : Nat)
    (hend : ancestor h n D = some Q) (hnull : find_parent h Q = Result.ok none) :
    ∃ rc : Int,
      (∀ fuel, n < fuel → pci_dev_to_slot fuel h table D = Result.ok rc) ∧
      (rc = INT_MAX ↔
        ∀ k, k ≤ n → ∀ R, ancestor h k D = some R → table R.bus R.dev = INT_MAX) ∧
      (∀ fuel, n < fuel → ∀ state : libbiosdevname_state,
        add_pci_dev fuel h (some table) true state D =
          Result.ok { heap := state.heap ++ [new_pci_device h D rc],
                      pci_devices := state.heap.length :: state.pci_devices }) ∧
      (new_pci_device h D rc).physical_slot = rc ∧
      (∀ fuel, ∀ state : libbiosdevname_state,
        add_pci_dev fuel h none true state D =
          Result.ok { heap := state.heap ++ [new_pci_device h D INT_MAX],
                      pci_devices := state.heap.length :: state.pci_devices }) ∧
      (new_pci_device h D INT_MAX).physical_slot = INT_MAX := by
  obtain ⟨rc, hrun, hiff⟩ := loop_finite h table n D Q hend hnull
  refine ⟨rc, hrun, hiff, ?_, new_pci_device_physical_slot h D rc, ?_,
    new_pci_device_physical_slot h D INT_MAX⟩
  · intro fuel hfuel state
    simp only [add_pci_dev, resolve_slot, pci_dev_to_slot, if_true]
    rw [hrun fuel hfuel]
  · intro fuel state
    simp only [add_pci_dev, resolve_slot, PHYSICAL_SLOT_UNKNOWN, if_true]

/-- Witness for C4: with a table that has no entry at all, the chain
`0000:05:17.4`, `0000:00:09.0` ends after one step. -/
theorem unknown_slot_witness :
    ∃ rc : Int,
      (∀ fuel, 1 < fuel →
        pci_dev_to_slot fuel bridge_host (fun _ _ => INT_MAX) ⟨0, 5, 0x17, 4, 0⟩ = Result.ok rc) ∧
      (rc = INT_MAX ↔
        ∀ k, k ≤ 1 → ∀ R, ancestor bridge_host k ⟨0, 5, 0x17, 4, 0⟩ = some R →
          (fun _ _ => INT_MAX : routing_table) R.bus R.dev = INT_MAX) :=
  match unknown_slot bridge_host (fun _ _ => INT_MAX) ⟨0, 5, 0x17, 4, 0⟩ ⟨0, 0, 9, 0, 0⟩ 1
      (by decide) (by decide) with
  | ⟨rc, h1, h2, _⟩ => ⟨rc, h1, h2⟩

theorem is_same_pci_iff (a b : pci_dev) : is_same_pci a b = true ↔ address a = address b := by
  simp [is_same_pci, address, and_assoc]

theorem is_same_pci_self (a : pci_dev) : is_same_pci a a = true :=
  (is_same_pci_iff a a).2 rfl

theorem fill_pci_dev_sysfs_pci_dev (h : host) (dev : pci_device) (p : pci_dev) :
    (fill_pci_dev_sysfs h dev p).pci_dev = dev.pci_dev := by
  unfold fill_pci_dev_sysfs
  cases read_pci_sysfs_index h p <;> cases read_pci_sysfs_label h p <;> rfl

theorem new_pci_device_pci_dev (h : host) (p : pci_dev) (slot : Int) :
    (new_pci_device h p slot).pci_dev = p := by
  unfold new_pci_device
  rw [fill_pci_dev_sysfs_pci_dev]

/-- On valid pointers the lookup loop returns the first pointer of the list whose record
has the address asked for. -/
theorem find_loop_valid (heap : List pci_device) (p : pci_dev) :
    ∀ ptrs : List Nat, (∀ d ∈ ptrs, d < heap.length) →
      find_loop heap p ptrs = Result.ok (ptrs.find? (fun d =>
        match heap[d]? with
        | some r => is_same_pci p r.pci_dev
        | none => false)) := by
  intro ptrs
  induction ptrs with
  | nil => intro _; rfl
  | cons d rest ih =>
    intro hv
    have hd : d < heap.length := hv d (List.mem_cons_self _ _)
    have hget : heap[d]? = some heap[d] := List.getElem?_eq_getElem hd
    have ih' := ih (fun x hx => hv x (List.mem_cons_of_mem _ hx))
    unfold find_loop
    rw [List.find?_cons]
    simp only [hget]
    by_cases hs : is_same_pci p heap[d].pci_dev = true
    · simp [hs]
    · have hs' : is_same_pci p heap[d].pci_dev = false := by simpa using hs
      simp only [hs', Bool.false_eq_true, if_false]
      exact ih'

theorem registry_of_range (heap : List pci_device) :
    registry { heap := heap, pci_devices := (List.range heap.length).reverse } = heap.reverse := by
  unfold registry
  simp only
  rw [List.filterMap_reverse]
  congr 1
  induction heap using List.reverseRecOn with
  | nil => rfl
  | append_singleton l a ih =>
    rw [List.length_append, List.length_singleton, List.range_succ, List.filterMap_append]
    have h1 : List.filterMap (fun d => (l ++ [a])[d]?) (List.range l.length) =
        List.filterMap (fun d => l[d]?) (List.range l.length) := by
      apply List.filterMap_congr
      intro d hd
      rw [List.mem_range] at hd
      rw [List.getElem?_append_left hd]
    rw [h1, ih]
    simp

theorem find_dev_by_pci_range (heap : List pci_device) (p : pci_dev) :
    (find_dev_by_pci { heap := heap, pci_devices := (List.range heap.length).reverse } p =
        Result.ok none ∧ address p ∉ heap.map (fun r => address r.pci_dev)) ∨
    (∃ d, find_dev_by_pci { heap := heap, pci_devices := (List.range heap.length).reverse } p =
        Result.ok (some d) ∧ address p ∈ heap.map (fun r => address r.pci_dev)) := by
  unfold find_dev_by_pci
  simp only
  rw [find_loop_valid heap p _ (fun d hd => by
    rw [List.mem_reverse, List.mem_range] at hd; exact hd)]
  cases hf : List.find? (fun d =>
        match heap[d]? with
        | some r => is_same_pci p r.pci_dev
        | none => false) (List.range heap.length).reverse with
  | none =>
    left
    refine ⟨rfl, ?_⟩
    rw [List.find?_eq_none] at hf
    intro hmem
    rw [List.mem_map] at hmem
    obtain ⟨r, hr, hra⟩ := hmem
    obtain ⟨d, hd, hdr⟩ := List.getElem_of_mem hr
    have := hf d (by rw [List.mem_reverse, List.mem_range]; exact hd)
    rw [List.getElem?_eq_getElem hd] at this
    simp only [hdr] at this
    exact this ((is_same_pci_iff _ _).2 hra.symm)
  | some d =>
    right
    refine ⟨d, rfl, ?_⟩
    have hp := List.find?_some hf
    have hmem := List.mem_of_find?_eq_some hf
    rw [List.mem_reverse, List.mem_range] at hmem
    rw [List.getElem?_eq_getElem hmem] at hp
    simp only at hp
    rw [List.mem_map]
    exact ⟨heap[d], List.getElem_mem _, ((is_same_pci_iff _ _).1 hp).symm⟩

/-- The population loop, from a state whose list holds every allocated record, newest
first, with pairwise distinct addresses. -/
theorem populate_spec (fuel : Nat) (h : host) (table : Option routing_table)
    (malloc_ok : Nat → Bool) :
    ∀ (ps : List pci_dev) (i : Nat) (heap : List pci_device),
      (heap.map (fun r => address r.pci_dev)).Nodup →
      (∀ j, j < ps.length → malloc_ok (i + j) = true) →
      (∀ p ∈ ps, ∃ rc, resolve_slot fuel h table p = Result.ok rc) →
      ∃ added : List pci_device,
        populate fuel h table malloc_ok ps i
            { heap := heap, pci_devices := (List.range heap.length).reverse } =
          Result.ok { heap := heap ++ added,
                      pci_devices := (List.range (heap ++ added).length).reverse } ∧
        ((heap ++ added).map (fun r => address r.pci_dev)).Nodup ∧
        (∀ a, a ∈ added.map (fun r => address r.pci_dev) ↔
          (a ∈ ps.map address ∧ a ∉ heap.map (fun r => address r.pci_dev))) ∧
        (∀ r ∈ added, ∃ p rc, ps.find? (fun p => is_same_pci p r.pci_dev) = some p ∧
          resolve_slot fuel h table p = Result.ok rc ∧ r = new_pci_device h p rc) ∧
        ((ps.map address).Nodup →
          (∀ p ∈ ps, address p ∉ heap.map (fun r => address r.pci_dev)) →
          added.map (fun r => r.pci_dev) = ps) := by
  intro ps
  induction ps with
  | nil =>
    intro i heap hnd _ _
    refine ⟨[], ?_, ?_, ?_, ?_, ?_⟩
    · simp [populate]
    · simpa using hnd
    · intro a; simp
    · intro r hr; simp at hr
    · intro _ _; rfl
  | cons p rest ih =>
    intro i heap hnd hmalloc hslot
    have hslot' : ∀ q ∈ rest, ∃ rc, resolve_slot fuel h table q = Result.ok rc :=
      fun q hq => hslot q (List.mem_cons_of_mem _ hq)
    have hmalloc' : ∀ j, j < rest.length → malloc_ok (i + 1 + j) = true := by
      intro j hj
      have := hmalloc (j + 1) (by simp; omega)
      rwa [show i + 1 + j = i + (j + 1) by omega]
    rcases find_dev_by_pci_range heap p with ⟨hfind, hnew⟩ | ⟨d, hfind, hold⟩
    · -- a first occurrence: the record is added
      obtain ⟨rc, hrc⟩ := hslot p (List.mem_cons_self _ _)
      have hm0 : malloc_ok i = true := by simpa using hmalloc 0 (by simp)
      have hnd1 : ((heap ++ [new_pci_device h p rc]).map (fun r => address r.pci_dev)).Nodup := by
        rw [List.map_append, List.map_singleton, new_pci_device_pci_dev]
        rw [List.nodup_append]
        refine ⟨hnd, List.nodup_singleton _, ?_⟩
        intro a ha hb
        rw [List.mem_singleton] at hb
        exact hnew (hb ▸ ha)
      obtain ⟨added, hrun, hnd2, hmem, hfirst, hord⟩ :=
        ih (i + 1) (heap ++ [new_pci_device h p rc]) hnd1 hmalloc' hslot'
      refine ⟨new_pci_device h p rc :: added, ?_, ?_, ?_, ?_, ?_⟩
      · rw [populate, hfind]
        simp only [add_pci_dev, hm0, if_true, hrc]
        have hl : heap.length :: (List.range heap.length).reverse =
            (List.range (heap ++ [new_pci_device h p rc]).length).reverse := by
          rw [List.length_append, List.length_singleton, List.range_succ]
          simp
        rw [hl, hrun]
        simp
      · simpa using hnd2
      · intro a
        rw [List.map_cons, List.mem_cons, hmem, List.map_cons, List.mem_cons,
          new_pci_device_pci_dev, List.map_append, List.mem_append, List.map_singleton,
          List.mem_singleton, new_pci_device_pci_dev]
        constructor
        · rintro (ha | ⟨ha, hb⟩)
          · exact ⟨Or.inl ha, ha ▸ hnew⟩
          · exact ⟨Or.inr ha, fun hc => hb (Or.inl hc)⟩
        · rintro ⟨ha | ha, hb⟩
          · exact Or.inl ha
          · by_cases hap : a = address p
            · exact Or.inl hap
            · exact Or.inr ⟨ha, fun hc => hc.elim hb hap⟩
      · intro r hr
        rw [List.mem_cons] at hr
        rcases hr with rfl | hr
        · refine ⟨p, rc, ?_, hrc, rfl⟩
          rw [List.find?_cons, new_pci_device_pci_dev, is_same_pci_self]
        · obtain ⟨q, rq, hq, hrq, hre⟩ := hfirst r hr
          refine ⟨q, rq, ?_, hrq, hre⟩
          have hra : address r.pci_dev ∈ added.map (fun r => address r.pci_dev) :=
            List.mem_map.2 ⟨r, hr, rfl⟩
          have hne : address r.pci_dev ≠ address p := by
            intro he
            have := ((hmem _).1 hra).2
            rw [List.map_append, List.mem_append, List.map_singleton, List.mem_singleton,
              new_pci_device_pci_dev] at this
            exact this (Or.inr he)
          have hsame : is_same_pci p r.pci_dev = false := by
            cases hs : is_same_pci p r.pci_dev with
            | false => rfl
            | true => exact absurd ((is_same_pci_iff _ _).1 hs).symm hne
          rw [List.find?_cons, hsame]
          exact hq
      · intro hnodup hfresh
        rw [List.map_cons, List.nodup_cons] at hnodup
        rw [List.map_cons, new_pci_device_pci_dev]
        congr 1
        apply hord hnodup.2
        intro q hq hc
        rw [List.map_append, List.mem_append, List.map_singleton, List.mem_singleton,
          new_pci_device_pci_dev] at hc
        rcases hc with hc | hc
        · exact hfresh q (List.mem_cons_of_mem _ hq) hc
        · exact hnodup.1 (hc ▸ List.mem_map.2 ⟨q, hq, rfl⟩)
    · -- a repeated address: nothing is added
      obtain ⟨added, hrun, hnd2, hmem, hfirst, hord⟩ := ih (i + 1) heap hnd hmalloc' hslot'
      refine ⟨added, ?_, hnd2, ?_, ?_, ?_⟩
      · rw [populate, hfind]
        exact hrun
      · intro a
        rw [hmem, List.map_cons, List.mem_cons]
        constructor
        · rintro ⟨ha, hb⟩
          exact ⟨Or.inr ha, hb⟩
        · rintro ⟨ha | ha, hb⟩
          · exact absurd (ha ▸ hold) hb
          · exact ⟨ha, hb⟩
      · intro r hr
        obtain ⟨q, rq, hq, hrq, hre⟩ := hfirst r hr
        refine ⟨q, rq, ?_, hrq, hre⟩
        have hra : address r.pci_dev ∈ added.map (fun r => address r.pci_dev) :=
          List.mem_map.2 ⟨r, hr, rfl⟩
        have hne : address r.pci_dev ≠ address p := by
          intro he
          exact ((hmem _).1 hra).2 (he ▸ hold)
        have hsame : is_same_pci p r.pci_dev = false := by
          cases hs : is_same_pci p r.pci_dev with
          | false => rfl
          | true => exact absurd ((is_same_pci_iff _ _).1 hs).symm hne
        rw [List.find?_cons, hsame]
        exact hq
      · intro _ hfresh
        exact absurd hold (hfresh p (List.mem_cons_self _ _))

/-- C5 (idempotent insertion). For every bus-scan sequence `ps` (repeated addresses
included), when every `malloc` succeeds and the slot resolution of every scanned device
returns, the population loop of `get_pci_devices`, run from the empty state, returns a
state whose registry holds exactly one record for each distinct scanned address: the
addresses of its records are pairwise distinct and are exactly the scanned addresses; and
each record is the one `add_pci_dev` builds from the first scanned device with its address. -/
theorem idempotent_insertion (fuel : Nat) (h : host) (table : Option routing_table)
    (malloc_ok : Nat → Bool) (ps : List pci_dev)
    (hmalloc : ∀ i, i < ps.length → malloc_ok i = true)
    (hslot : ∀ p ∈ ps, ∃ rc, resolve_slot fuel h table p = Result.ok rc) :
    ∃ state, populate fuel h table malloc_ok ps 0 empty_state = Result.ok state ∧
      ((registry state).map (fun r => address r.pci_dev)).Nodup ∧
      (∀ a, a ∈ (registry state).map (fun r => address r.pci_dev) ↔ a ∈ ps.map address) ∧
      (∀ r ∈ registry state, ∃ p rc,
        ps.find? (fun p => is_same_pci p r.pci_dev) = some p ∧
        resolve_slot fuel h table p = Result.ok rc ∧ r = new_pci_device h p rc) := by
  obtain ⟨added, hrun, hnd, hmem, hfirst, _⟩ :=
    populate_spec fuel h table malloc_ok ps 0 [] (by simp)
      (fun j hj => by rw [Nat.zero_add]; exact hmalloc j hj) hslot
  refine ⟨_, hrun, ?_, ?_, ?_⟩
  · rw [registry_of_range, List.map_reverse, List.nodup_reverse]
    exact hnd
  · intro a
    rw [registry_of_range, List.map_reverse, List.mem_reverse, List.nil_append, hmem]
    simp
  · intro r hr
    rw [registry_of_range, List.mem_reverse, List.nil_append] at hr
    exact hfirst r hr

/-- Witness for C5: a scan that yields `0000:06:00.0` twice (with two
different class words) and `0000:06:00.1` once, with no routing table. -/
theorem idempotent_insertion_witness :
    ∃ state, populate 0 sriov_host none (fun _ => true)
        [⟨0, 6, 0, 0, 0x200⟩, ⟨0, 6, 0, 0, 0x300⟩, ⟨0, 6, 0, 1, 0x200⟩] 0 empty_state =
          Result.ok state ∧
      ((registry state).map (fun r => address r.pci_dev)).Nodup ∧
      (∀ a, a ∈ (registry state).map (fun r => address r.pci_dev) ↔
        a ∈ ([⟨0, 6, 0, 0, 0x200⟩, ⟨0, 6, 0, 0, 0x300⟩, ⟨0, 6, 0, 1, 0x200⟩] :
          List pci_dev).map address) ∧
      (∀ r ∈ registry state, ∃ p rc,
        ([⟨0, 6, 0, 0, 0x200⟩, ⟨0, 6, 0, 0, 0x300⟩, ⟨0, 6, 0, 1, 0x200⟩] :
          List pci_dev).find? (fun p => is_same_pci p r.pci_dev) = some p ∧
        resolve_slot 0 sriov_host none p = Result.ok rc ∧ r = new_pci_device sriov_host p rc) :=
  idempotent_insertion 0 sriov_host none (fun _ => true)
    [⟨0, 6, 0, 0, 0x200⟩, ⟨0, 6, 0, 0, 0x300⟩, ⟨0, 6, 0, 1, 0x200⟩]
    (fun _ _ => rfl) (fun _ _ => ⟨_, rfl⟩)

/-- C9 (registry iteration order), as amended. For every bus-scan sequence `ps` of pairwise
distinct addresses, when every `malloc` succeeds and the slot resolution of every scanned
device returns, iterating the registry built by the population loop of `get_pci_devices`
visits the records in reverse scan order, newest-scanned first. -/
theorem registry_order (fuel : Nat) (h : host) (table : Option routing_table)
    (malloc_ok : Nat → Bool) (ps : List pci_dev)
    (hdistinct : (ps.map address).Nodup)
    (hmalloc : ∀ i, i < ps.length → malloc_ok i = true)
    (hslot : ∀ p ∈ ps, ∃ rc, resolve_slot fuel h table p = Result.ok rc) :
    ∃ state, populate fuel h table malloc_ok ps 0 empty_state = Result.ok state ∧
      (registry state).map (fun r => r.pci_dev) = ps.reverse := by
  obtain ⟨added, hrun, _, _, _, hord⟩ :=
    populate_spec fuel h table malloc_ok ps 0 [] (by simp)
      (fun j hj => by rw [Nat.zero_add]; exact hmalloc j hj) hslot
  refine ⟨_, hrun, ?_⟩
  rw [registry_of_range, List.map_reverse, List.nil_append, hord hdistinct (by simp)]

/-- Witness for C9: the scan `0000:06:00.0`, `0000:06:00.1`. -/
theorem registry_order_witness :
    ∃ state, populate 0 sriov_host none (fun _ => true)
        [⟨0, 6, 0, 0, 0x200⟩, ⟨0, 6, 0, 1, 0x200⟩] 0 empty_state = Result.ok state ∧
      (registry state).map (fun r => r.pci_dev) =
        ([⟨0, 6, 0, 0, 0x200⟩, ⟨0, 6, 0, 1, 0x200⟩] : List pci_dev).reverse :=
  registry_order 0 sriov_host none (fun _ => true)
    [⟨0, 6, 0, 0, 0x200⟩, ⟨0, 6, 0, 1, 0x200⟩] (by decide) (fun _ _ => rfl)
    (fun _ _ => ⟨_, rfl⟩)

/-- C9 as stated fails: after the scan `0000:06:00.0`, `0000:06:00.1` the registry is
iterated as `0000:06:00.1`, `0000:06:00.0`, the newest-scanned record first. -/
theorem registry_order_newest_first :
    (match populate 0 sriov_host none (fun _ => true)
        [⟨0, 6, 0, 0, 0x200⟩, ⟨0, 6, 0, 1, 0x200⟩] 0 empty_state with
      | Result.ok state => some ((registry state).map (fun r => r.pci_dev))
      | Result.fault => none
      | Result.timeout => none) =
    some [⟨0, 6, 0, 1, 0x200⟩, ⟨0, 6, 0, 0, 0x200⟩] := by
  decide

theorem upd_length (heap : List pci_device) (p : Nat) (f : pci_device → pci_device) :
    (upd heap p f).length = heap.length := by
  unfold upd
  cases heap[p]? <;> simp

theorem upd_get (heap : List pci_device) (p : Nat) (f : pci_device → pci_device) (q : Nat) :
    (upd heap p f)[q]? = if q = p then (heap[q]?).map f else heap[q]? := by
  unfold upd
  cases hp : heap[p]? with
  | none =>
    by_cases hq : q = p
    · subst hq; simp [hp]
    · simp [hq]
  | some r =>
    have hlt : p < heap.length := by
      rcases Nat.lt_or_ge p heap.length with h | h
      · exact h
      · rw [List.getElem?_eq_none h] at hp
        exact absurd hp (by simp)
    simp only [List.getElem?_set]
    by_cases hq : q = p
    · subst hq; simp [hp, hlt]
    · have hq' : ¬ p = q := fun e => hq e.symm
      simp [hq, hq']

theorem num_vfs_of_get (heap : List pci_device) (pf : Nat) (r : pci_device)
    (h : heap[pf]? = some r) : num_vfs_of heap pf = r.num_vfs := by
  simp [num_vfs_of, h]

/-- The heap after the attaching branch of `add_vf_to_pf`, record by record. -/
theorem attach_get (heap : List pci_device) (pf vf : Nat) (q : Nat) :
    (attach (upd heap vf (fun r => { r with is_virtual_function := 1 })) pf vf)[q]? =
      (heap[q]?).map (linked pf vf (num_vfs_of heap pf) q) := by
  have hn : num_vfs_of
      (upd (upd (upd heap vf (fun r => { r with is_virtual_function := 1 })) pf
        (fun r => { r with vfs := r.vfs ++ [vf] })) vf (fun r => { r with vfnode := some pf })) pf =
      num_vfs_of heap pf := by
    unfold num_vfs_of
    simp only [upd_get]
    cases heap[pf]? <;> by_cases e : pf = vf <;> simp [e]
  unfold attach
  simp only [hn, upd_get]
  by_cases e1 : q = pf
  · subst e1
    by_cases e2 : q = vf
    · subst e2
      cases heap[q]? <;> simp [linked]
    · cases heap[q]? <;> simp [e2, linked]
  · by_cases e2 : q = vf
    · subst e2
      cases heap[q]? <;> simp [e1, linked]
    · cases heap[q]? <;> simp [e1, e2, linked]

theorem mark_get (heap : List pci_device) (vf : Nat) (q : Nat) :
    (upd heap vf (fun r => { r with is_virtual_function := 1 }))[q]? =
      (heap[q]?).map (marked vf q) := by
  rw [upd_get]
  cases heap[q]? with
  | none => by_cases e2 : q = vf <;> simp [e2]
  | some r => by_cases e2 : q = vf <;> simp [e2, marked]

theorem add_vf_to_pf_eq (h : host) (state : libbiosdevname_state) (pf vf : Nat)
    (X V : pci_device) (hX : state.heap[pf]? = some X) (hV : state.heap[vf]? = some V) :
    add_vf_to_pf h state pf vf =
      match find_physfn h V.pci_dev with
      | Result.fault => Result.fault
      | Result.timeout => Result.timeout
      | Result.ok none => Result.ok state
      | Result.ok (some pfdev) =>
        if is_same_pci X.pci_dev pfdev then
          if V.vfnode = none then
            Result.ok { state with
              heap := attach (upd state.heap vf (fun r => { r with is_virtual_function := 1 })) pf vf }
          else Result.fault
        else
          Result.ok { state with
            heap := upd state.heap vf (fun r => { r with is_virtual_function := 1 }) } := by
  unfold add_vf_to_pf
  rw [hV]
  simp only
  cases find_physfn h V.pci_dev with
  | fault => rfl
  | timeout => rfl
  | ok res =>
    cases res with
    | none => rfl
    | some d => simp only [hX]

/-- The three ways `add_vf_to_pf` returns: no physical function (nothing changes), a
physical function other than `pf` (`vf` is marked), the physical function `pf` (`vf` is
marked and attached, its `vfnode` having been unlinked). -/
theorem add_vf_to_pf_shape (h : host) (state state1 : libbiosdevname_state) (pf vf : Nat)
    (X V : pci_device) (hX : state.heap[pf]? = some X) (hV : state.heap[vf]? = some V)
    (hrun : add_vf_to_pf h state pf vf = Result.ok state1) :
    state1.pci_devices = state.pci_devices ∧
    ((find_physfn h V.pci_dev = Result.ok none ∧ state1 = state) ∨
     (∃ d, find_physfn h V.pci_dev = Result.ok (some d) ∧ is_same_pci X.pci_dev d = false ∧
        ∀ q, state1.heap[q]? = (state.heap[q]?).map (marked vf q)) ∨
     (∃ d, find_physfn h V.pci_dev = Result.ok (some d) ∧ is_same_pci X.pci_dev d = true ∧
        V.vfnode = none ∧
        ∀ q, state1.heap[q]? = (state.heap[q]?).map (linked pf vf X.num_vfs q))) := by
  rw [add_vf_to_pf_eq h state pf vf X V hX hV] at hrun
  cases hp : find_physfn h V.pci_dev with
  | fault => rw [hp] at hrun; exact absurd hrun (by simp)
  | timeout => rw [hp] at hrun; exact absurd hrun (by simp)
  | ok res =>
    rw [hp] at hrun
    cases res with
    | none =>
      simp only [Result.ok.injEq] at hrun
      subst hrun
      exact ⟨rfl, Or.inl ⟨rfl, rfl⟩⟩
    | some d =>
      simp only at hrun
      by_cases hs : is_same_pci X.pci_dev d = true
      · rw [if_pos hs] at hrun
        by_cases hn : V.vfnode = none
        · rw [if_pos hn] at hrun
          simp only [Result.ok.injEq] at hrun
          subst hrun
          refine ⟨rfl, Or.inr (Or.inr ⟨d, rfl, hs, hn, ?_⟩)⟩
          intro q
          simp only
          rw [attach_get, num_vfs_of_get _ _ _ hX]
        · rw [if_neg hn] at hrun
          exact absurd hrun (by simp)
      · rw [if_neg hs] at hrun
        simp only [Result.ok.injEq] at hrun
        subst hrun
        refine ⟨rfl, Or.inr (Or.inl ⟨d, rfl, by simpa using hs, ?_⟩)⟩
        intro q
        simp only
        rw [mark_get]

theorem length_eq_of_get (l1 l2 : List pci_device) (f : Nat → pci_device → pci_device)
    (hget : ∀ q, l1[q]? = (l2[q]?).map (f q)) : l1.length = l2.length := by
  rcases Nat.lt_trichotomy l1.length l2.length with hlt | heq | hgt
  · have := hget l1.length
    rw [List.getElem?_eq_none (le_refl _), List.getElem?_eq_getElem hlt] at this
    exact absurd this (by simp)
  · exact heq
  · have := hget l2.length
    rw [List.getElem?_eq_none (le_refl _), List.getElem?_eq_getElem hgt] at this
    exact absurd this (by simp)

theorem get_of_map (l1 l2 : List pci_device) (f : Nat → pci_device → pci_device)
    (hget : ∀ q, l1[q]? = (l2[q]?).map (f q)) (q : Nat) (r1 : pci_device)
    (h1 : l1[q]? = some r1) : ∃ r, l2[q]? = some r ∧ r1 = f q r := by
  rw [hget q] at h1
  cases h2 : l2[q]? with
  | none => rw [h2] at h1; exact absurd h1 (by simp)
  | some r =>
    rw [h2] at h1
    simp only [Option.map_some', Option.some.injEq] at h1
    exact ⟨r, rfl, h1.symm⟩

theorem map_of_get (l1 l2 : List pci_device) (f : Nat → pci_device → pci_device)
    (hget : ∀ q, l1[q]? = (l2[q]?).map (f q)) (q : Nat) (r : pci_device)
    (h2 : l2[q]? = some r) : l1[q]? = some (f q r) := by
  rw [hget q, h2]; rfl

theorem length_le_of_nodup_lt (l : List Nat) (n : Nat) (hnd : l.Nodup) (hlt : ∀ x ∈ l, x < n) :
    l.length ≤ n := by
  have hsub : l.toFinset ⊆ Finset.range n := by
    intro x hx
    rw [List.mem_toFinset] at hx
    exact Finset.mem_range.2 (hlt x hx)
  have hcard := Finset.card_le_card hsub
  rw [List.toFinset_card_of_nodup hnd, Finset.card_range] at hcard
  exact hcard

theorem lt_length_of_get (l : List pci_device) (q : Nat) (r : pci_device) (h : l[q]? = some r) :
    q < l.length := by
  rcases Nat.lt_or_ge q l.length with hl | hl
  · exact hl
  · rw [List.getElem?_eq_none hl] at h
    exact absurd h (by simp)

theorem vfs_owned_marked (heap heap1 : List pci_device) (vf : Nat) (hown : vfs_owned heap)
    (hget : ∀ q, heap1[q]? = (heap[q]?).map (marked vf q)) : vfs_owned heap1 := by
  intro q r1 h1
  obtain ⟨r, hr, rfl⟩ := get_of_map heap1 heap (marked vf) hget q r1 h1
  obtain ⟨hnd, hmem⟩ := hown q r hr
  refine ⟨hnd, ?_⟩
  intro v hv
  obtain ⟨rv, hrv, hnode⟩ := hmem v hv
  exact ⟨marked vf v rv, map_of_get heap1 heap (marked vf) hget v rv hrv, hnode⟩

theorem member_ne_unlinked (heap : List pci_device) (hown : vfs_owned heap) (q vf : Nat)
    (r V : pci_device) (hr : heap[q]? = some r) (hV : heap[vf]? = some V)
    (hfree : V.vfnode = none) : vf ∉ r.vfs := by
  intro hmem
  obtain ⟨rv, hrv, hnode⟩ := (hown q r hr).2 vf hmem
  rw [hV] at hrv
  simp only [Option.some.injEq] at hrv
  subst hrv
  rw [hfree] at hnode
  exact absurd hnode (by simp)

theorem vfs_owned_linked (heap heap1 : List pci_device) (pf vf n : Nat) (V : pci_device)
    (hown : vfs_owned heap) (hV : heap[vf]? = some V) (hfree : V.vfnode = none)
    (hget : ∀ q, heap1[q]? = (heap[q]?).map (linked pf vf n q)) : vfs_owned heap1 := by
  intro q r1 h1
  obtain ⟨r, hr, rfl⟩ := get_of_map heap1 heap (linked pf vf n) hget q r1 h1
  obtain ⟨hnd, hmem⟩ := hown q r hr
  have hnot : vf ∉ r.vfs := member_ne_unlinked heap hown q vf r V hr hV hfree
  have hold : ∀ v ∈ r.vfs, ∃ rv : pci_device, heap1[v]? = some rv ∧ rv.vfnode = some q := by
    intro v hv
    obtain ⟨rv, hrv, hnode⟩ := hmem v hv
    have hne : v ≠ vf := fun e => hnot (e ▸ hv)
    refine ⟨linked pf vf n v rv, map_of_get heap1 heap _ hget v rv hrv, ?_⟩
    simp [linked, hne, hnode]
  by_cases hq : q = pf
  · subst hq
    have hvfs : (linked q vf n q r).vfs = r.vfs ++ [vf] := by simp [linked]
    rw [hvfs]
    refine ⟨?_, ?_⟩
    · rw [List.nodup_append]
      refine ⟨hnd, List.nodup_singleton _, ?_⟩
      intro a ha hb
      rw [List.mem_singleton] at hb
      exact hnot (hb ▸ ha)
    · intro v hv
      rw [List.mem_append, List.mem_singleton] at hv
      rcases hv with hv | hv
      · exact hold v hv
      · subst hv
        refine ⟨linked q v n v V, map_of_get heap1 heap _ hget v V hV, ?_⟩
        simp [linked]
  · have hvfs : (linked pf vf n q r).vfs = r.vfs := by simp [linked, hq]
    rw [hvfs]
    exact ⟨hnd, hold⟩

theorem vfs_counted_marked (heap heap1 : List pci_device) (vf : Nat) (hcnt : vfs_counted heap)
    (hget : ∀ q, heap1[q]? = (heap[q]?).map (marked vf q)) : vfs_counted heap1 := by
  intro q r1 h1
  obtain ⟨r, hr, rfl⟩ := get_of_map heap1 heap (marked vf) hget q r1 h1
  obtain ⟨hnum, hidx⟩ := hcnt q r hr
  refine ⟨hnum, ?_⟩
  intro k v hv
  obtain ⟨rv, hrv, hk⟩ := hidx k v hv
  exact ⟨marked vf v rv, map_of_get heap1 heap (marked vf) hget v rv hrv, hk⟩

theorem vfs_counted_linked (heap heap1 : List pci_device) (pf vf : Nat) (X V : pci_device)
    (hown : vfs_owned heap) (hcnt : vfs_counted heap) (hX : heap[pf]? = some X)
    (hV : heap[vf]? = some V) (hfree : V.vfnode = none) (hlen : heap.length < 2 ^ 32)
    (hget : ∀ q, heap1[q]? = (heap[q]?).map (linked pf vf X.num_vfs q)) : vfs_counted heap1 := by
  intro q r1 h1
  obtain ⟨r, hr, rfl⟩ := get_of_map heap1 heap (linked pf vf X.num_vfs) hget q r1 h1
  obtain ⟨hnum, hidx⟩ := hcnt q r hr
  have hnot : vf ∉ r.vfs := member_ne_unlinked heap hown q vf r V hr hV hfree
  have hold : ∀ (k v : Nat), r.vfs[k]? = some v →
      ∃ rv : pci_device, heap1[v]? = some rv ∧ rv.vf_index = k := by
    intro k v hv
    obtain ⟨rv, hrv, hk⟩ := hidx k v hv
    have hne : v ≠ vf := fun e => hnot (e ▸ List.getElem?_mem hv)
    refine ⟨linked pf vf X.num_vfs v rv, map_of_get heap1 heap _ hget v rv hrv, ?_⟩
    simp [linked, hne, hk]
  by_cases hq : q = pf
  · subst hq
    rw [hX] at hr
    simp only [Option.some.injEq] at hr
    subst hr
    have hbound : X.vfs.length + 1 ≤ heap.length := by
      have hnd : (vf :: X.vfs).Nodup := List.nodup_cons.2 ⟨hnot, (hown q X hX).1⟩
      have := length_le_of_nodup_lt (vf :: X.vfs) heap.length hnd (by
        intro x hx
        rw [List.mem_cons] at hx
        rcases hx with rfl | hx
        · exact lt_length_of_get heap _ V hV
        · obtain ⟨rv, hrv, _⟩ := (hown q X hX).2 x hx
          exact lt_length_of_get heap x rv hrv)
      simpa using this
    have hvfs : (linked q vf X.num_vfs q X).vfs = X.vfs ++ [vf] := by simp [linked]
    have hn : (linked q vf X.num_vfs q X).num_vfs = (X.num_vfs + 1) % 2 ^ 32 := by simp [linked]
    rw [hvfs, hn]
    refine ⟨?_, ?_⟩
    · rw [hnum, List.length_append, List.length_singleton]
      exact Nat.mod_eq_of_lt (by omega)
    · intro k v hv
      rcases Nat.lt_or_ge k X.vfs.length with hk | hk
      · rw [List.getElem?_append_left hk] at hv
        exact hold k v hv
      · rw [List.getElem?_append_right hk] at hv
        have hk0 : k - X.vfs.length = 0 := by
          by_contra hne
          rw [List.getElem?_eq_none (by simp; omega)] at hv
          exact absurd hv (by simp)
        rw [hk0] at hv
        simp only [List.getElem?_cons_zero, Option.some.injEq] at hv
        subst hv
        refine ⟨linked q vf X.num_vfs vf V, map_of_get heap1 heap _ hget vf V hV, ?_⟩
        simp only [linked, if_true]
        omega
  · have hvfs : (linked pf vf X.num_vfs q r).vfs = r.vfs := by simp [linked, hq]
    have hn : (linked pf vf X.num_vfs q r).num_vfs = r.num_vfs := by simp [linked, hq]
    rw [hvfs, hn]
    exact ⟨hnum, hold⟩

theorem add_vf_to_pf_valid (h : host) (state state1 : libbiosdevname_state) (pf vf : Nat)
    (hrun : add_vf_to_pf h state pf vf = Result.ok state1) :
    ∃ V, state.heap[vf]? = some V ∧
      ((find_physfn h V.pci_dev = Result.ok none ∧ state1 = state) ∨
        ∃ X, state.heap[pf]? = some X) := by
  unfold add_vf_to_pf at hrun
  cases hV : state.heap[vf]? with
  | none => rw [hV] at hrun; exact absurd hrun (by simp)
  | some V =>
    refine ⟨V, rfl, ?_⟩
    rw [hV] at hrun
    simp only at hrun
    cases hp : find_physfn h V.pci_dev with
    | fault => rw [hp] at hrun; exact absurd hrun (by simp)
    | timeout => rw [hp] at hrun; exact absurd hrun (by simp)
    | ok res =>
      rw [hp] at hrun
      cases res with
      | none =>
        simp only [Result.ok.injEq] at hrun
        exact Or.inl ⟨rfl, hrun.symm⟩
      | some d =>
        simp only at hrun
        cases hX : state.heap[pf]? with
        | none => rw [hX] at hrun; exact absurd hrun (by simp)
        | some X => exact Or.inr ⟨X, rfl⟩

/-- One `add_vf_to_pf` call keeps the list invariants. -/
theorem add_vf_to_pf_inv (h : host) (state state1 : libbiosdevname_state) (pf vf : Nat)
    (hrun : add_vf_to_pf h state pf vf = Result.ok state1) (hown : vfs_owned state.heap) :
    state1.pci_devices = state.pci_devices ∧ state1.heap.length = state.heap.length ∧
    vfs_owned state1.heap ∧
    (vfs_counted state.heap → state.heap.length < 2 ^ 32 → vfs_counted state1.heap) := by
  obtain ⟨V, hV, hcases⟩ := add_vf_to_pf_valid h state state1 pf vf hrun
  rcases hcases with ⟨_, hst⟩ | ⟨X, hX⟩
  · subst hst
    exact ⟨rfl, rfl, hown, fun hc _ => hc⟩
  · obtain ⟨hp, hcase⟩ := add_vf_to_pf_shape h state state1 pf vf X V hX hV hrun
    refine ⟨hp, ?_⟩
    rcases hcase with ⟨_, hst⟩ | ⟨d, _, _, hget⟩ | ⟨d, _, _, hfree, hget⟩
    · subst hst
      exact ⟨rfl, hown, fun hc _ => hc⟩
    · exact ⟨length_eq_of_get _ _ _ hget, vfs_owned_marked _ _ vf hown hget,
        fun hc _ => vfs_counted_marked _ _ vf hc hget⟩
    · exact ⟨length_eq_of_get _ _ _ hget, vfs_owned_linked _ _ pf vf _ V hown hV hfree hget,
        fun hc hl => vfs_counted_linked _ _ pf vf X V hown hc hX hV hfree hl hget⟩

/-- Any sequence of `add_vf_to_pf` calls that returns keeps the list invariants. -/
theorem run_links_inv (h : host) :
    ∀ (L : List (Nat × Nat)) (state state1 : libbiosdevname_state),
      run_links h L state = Result.ok state1 → vfs_owned state.heap →
      state1.pci_devices = state.pci_devices ∧ state1.heap.length = state.heap.length ∧
      vfs_owned state1.heap ∧
      (vfs_counted state.heap → state.heap.length < 2 ^ 32 → vfs_counted state1.heap) := by
  intro L
  induction L with
  | nil =>
    intro state state1 hrun hown
    simp only [run_links, Result.ok.injEq] at hrun
    subst hrun
    exact ⟨rfl, rfl, hown, fun hc _ => hc⟩
  | cons x L ih =>
    intro state state1 hrun hown
    obtain ⟨pf, vf⟩ := x
    rw [run_links] at hrun
    cases hstep : add_vf_to_pf h state pf vf with
    | fault => rw [hstep] at hrun; exact absurd hrun (by simp)
    | timeout => rw [hstep] at hrun; exact absurd hrun (by simp)
    | ok mid =>
      rw [hstep] at hrun
      obtain ⟨hp1, hl1, hown1, hc1⟩ := add_vf_to_pf_inv h state mid pf vf hstep hown
      obtain ⟨hp2, hl2, hown2, hc2⟩ := ih mid state1 hrun hown1
      refine ⟨hp2.trans hp1, hl2.trans hl1, hown2, ?_⟩
      intro hc hl
      exact hc2 (hc1 hc hl) (by rw [hl1]; exact hl)

theorem run_links_append (h : host) :
    ∀ (L1 L2 : List (Nat × Nat)) (state : libbiosdevname_state),
      run_links h (L1 ++ L2) state =
        match run_links h L1 state with
        | Result.ok mid => run_links h L2 mid
        | Result.fault => Result.fault
        | Result.timeout => Result.timeout := by
  intro L1
  induction L1 with
  | nil => intro L2 state; rfl
  | cons x L1 ih =>
    intro L2 state
    obtain ⟨pf, vf⟩ := x
    rw [List.cons_append, run_links, run_links]
    cases add_vf_to_pf h state pf vf with
    | fault => rfl
    | timeout => rfl
    | ok mid => exact ih L2 mid

theorem link_row_eq (h : host) (pf : Nat) :
    ∀ (l : List Nat) (state : libbiosdevname_state),
      link_row h pf l state = run_links h (l.map (fun vf => (pf, vf))) state := by
  intro l
  induction l with
  | nil => intro state; rfl
  | cons vf l ih =>
    intro state
    rw [List.map_cons, link_row, run_links]
    cases add_vf_to_pf h state pf vf with
    | fault => rfl
    | timeout => rfl
    | ok mid => exact ih mid

theorem link_rows_eq (h : host) (all : List Nat) :
    ∀ (rows : List Nat) (state : libbiosdevname_state),
      link_rows h all rows state =
        run_links h ((rows.map (fun pf => all.map (fun vf => (pf, vf)))).flatten) state := by
  intro rows
  induction rows with
  | nil => intro state; rfl
  | cons pf rows ih =>
    intro state
    rw [List.map_cons, List.flatten_cons, run_links_append, link_rows, link_row_eq]
    cases run_links h (all.map (fun vf => (pf, vf))) state with
    | fault => rfl
    | timeout => rfl
    | ok mid => exact ih mid

/-- The nested loops of the second pass make the `add_vf_to_pf` calls of `link_pairs`, in
that order. -/
theorem link_all_eq (h : host) (state : libbiosdevname_state) :
    link_all h state = run_links h (link_pairs state.pci_devices) state :=
  link_rows_eq h state.pci_devices state.pci_devices state

theorem find_physfn_ne_timeout (h : host) (p : pci_dev) : find_physfn h p ≠ Result.timeout := by
  unfold find_physfn
  cases read_pci_sysfs_physfn h PATH_MAX p with
  | none => simp
  | some bytes =>
    simp only
    cases c_string PATH_MAX bytes with
    | none => simp
    | some path =>
      simp only
      cases rindex path '/' with
      | none => simp
      | some i => simp

theorem add_vf_to_pf_returns (h : host) (state : libbiosdevname_state) (pf vf : Nat)
    (X V : pci_device) (res : Option pci_dev) (hX : state.heap[pf]? = some X)
    (hV : state.heap[vf]? = some V) (hphys : find_physfn h V.pci_dev = Result.ok res)
    (hfree : ∀ d, res = some d → is_same_pci X.pci_dev d = true → V.vfnode = none) :
    ∃ state1, add_vf_to_pf h state pf vf = Result.ok state1 := by
  rw [add_vf_to_pf_eq h state pf vf X V hX hV, hphys]
  cases res with
  | none => exact ⟨_, rfl⟩
  | some d =>
    simp only
    by_cases hs : is_same_pci X.pci_dev d = true
    · rw [if_pos hs, if_pos (hfree d rfl hs)]
      exact ⟨_, rfl⟩
    · rw [if_neg hs]
      exact ⟨_, rfl⟩

theorem pci_dev_of_map (l1 l2 : List pci_device) (f : Nat → pci_device → pci_device)
    (hf : ∀ q r, (f q r).pci_dev = r.pci_dev)
    (hget : ∀ q, l1[q]? = (l2[q]?).map (f q)) (q : Nat) :
    (l1[q]?).map (fun r => r.pci_dev) = (l2[q]?).map (fun r => r.pci_dev) := by
  rw [hget q]
  cases l2[q]? with
  | none => rfl
  | some r => simp [hf]

/-- With pairwise distinct addresses, a pass over pairwise distinct pairs never attaches a
record twice, so every `add_vf_to_pf` call returns. `A` gives the (unchanging) address of
each record, `done` the pairs already visited. -/
theorem run_links_returns (h : host) (A : Nat → Option pci_dev) (P : List Nat)
    (hdis : ∀ p1 p2 X1 X2, p1 ∈ P → p2 ∈ P → A p1 = some X1 → A p2 = some X2 →
      address X1 = address X2 → p1 = p2)
    (hphys : ∀ v V, v ∈ P → A v = some V → find_physfn h V ≠ Result.fault) :
    ∀ (L done : List (Nat × Nat)) (state : libbiosdevname_state),
      (∀ q, (state.heap[q]?).map (fun r => r.pci_dev) = A q) →
      (∀ (v : Nat) (rv : pci_device) (q : Nat), state.heap[v]? = some rv → rv.vfnode = some q →
        (q, v) ∈ done ∧ ∃ X d, A q = some X ∧
          find_physfn h rv.pci_dev = Result.ok (some d) ∧ is_same_pci X d = true) →
      (∀ x ∈ done, x.1 ∈ P) → (∀ x ∈ L, x.1 ∈ P ∧ x.2 ∈ P) →
      (∀ x ∈ L, (A x.1).isSome = true ∧ (A x.2).isSome = true) →
      L.Nodup → (∀ x ∈ L, x ∉ done) →
      ∃ state1, run_links h L state = Result.ok state1 := by
  intro L
  induction L with
  | nil => intro done state _ _ _ _ _ _ _; exact ⟨state, rfl⟩
  | cons x L ih =>
    intro done state hA hJ hdoneP hLP hvalid hnd hfresh
    obtain ⟨pf, vf⟩ := x
    have hpfP : pf ∈ P := (hLP (pf, vf) (List.mem_cons_self _ _)).1
    have hvfP : vf ∈ P := (hLP (pf, vf) (List.mem_cons_self _ _)).2
    have hxd : (pf, vf) ∉ done := hfresh (pf, vf) (List.mem_cons_self _ _)
    rw [List.nodup_cons] at hnd
    -- the two records
    obtain ⟨hApf, hAvf⟩ := hvalid (pf, vf) (List.mem_cons_self _ _)
    obtain ⟨Xa, hXa⟩ := Option.isSome_iff_exists.1 hApf
    obtain ⟨Va, hVa⟩ := Option.isSome_iff_exists.1 hAvf
    have hXe : ∃ X, state.heap[pf]? = some X ∧ X.pci_dev = Xa := by
      have := hA pf
      rw [hXa] at this
      cases hh : state.heap[pf]? with
      | none => rw [hh] at this; exact absurd this (by simp)
      | some X => rw [hh] at this; exact ⟨X, rfl, by simpa using this⟩
    have hVe : ∃ V, state.heap[vf]? = some V ∧ V.pci_dev = Va := by
      have := hA vf
      rw [hVa] at this
      cases hh : state.heap[vf]? with
      | none => rw [hh] at this; exact absurd this (by simp)
      | some V => rw [hh] at this; exact ⟨V, rfl, by simpa using this⟩
    obtain ⟨X, hX, hXpci⟩ := hXe
    obtain ⟨V, hV, hVpci⟩ := hVe
    -- the physfn read returns
    have hres : ∃ res, find_physfn h V.pci_dev = Result.ok res := by
      cases hp : find_physfn h V.pci_dev with
      | ok res => exact ⟨res, rfl⟩
      | fault => exact absurd hp (hVpci ▸ hphys vf Va hvfP hVa)
      | timeout => exact absurd hp (find_physfn_ne_timeout h _)
    obtain ⟨res, hres⟩ := hres
    -- a matching record is not on a list yet
    have hfree : ∀ d, res = some d → is_same_pci X.pci_dev d = true → V.vfnode = none := by
      intro d hd hs
      cases hn : V.vfnode with
      | none => rfl
      | some q =>
        exfalso
        obtain ⟨hqd, Xq, d', hAq, hp', hs'⟩ := hJ vf V q hV hn
        rw [hres, hd] at hp'
        simp only [Result.ok.injEq, Option.some.injEq] at hp'
        subst hp'
        have ha1 : address Xq = address d := (is_same_pci_iff _ _).1 hs'
        have ha2 : address X.pci_dev = address d := (is_same_pci_iff _ _).1 hs
        have hq : q = pf :=
          hdis q pf Xq Xa (hdoneP _ hqd) hpfP hAq hXa (by rw [ha1, ← hXpci, ha2])
        exact hxd (hq ▸ hqd)
    obtain ⟨mid, hstep⟩ := add_vf_to_pf_returns h state pf vf X V res hX hV hres hfree
    obtain ⟨_, hcase⟩ := add_vf_to_pf_shape h state mid pf vf X V hX hV hstep
    rw [run_links, hstep]
    have hdoneP' : ∀ x ∈ (pf, vf) :: done, x.1 ∈ P := by
      intro x hx
      rw [List.mem_cons] at hx
      rcases hx with rfl | hx
      · exact hpfP
      · exact hdoneP x hx
    have hLP' : ∀ x ∈ L, x.1 ∈ P ∧ x.2 ∈ P := fun x hx => hLP x (List.mem_cons_of_mem _ hx)
    have hvalid' : ∀ x ∈ L, (A x.1).isSome = true ∧ (A x.2).isSome = true :=
      fun x hx => hvalid x (List.mem_cons_of_mem _ hx)
    have hfresh' : ∀ x ∈ L, x ∉ (pf, vf) :: done := by
      intro x hx hc
      rw [List.mem_cons] at hc
      rcases hc with rfl | hc
      · exact hnd.1 hx
      · exact hfresh x (List.mem_cons_of_mem _ hx) hc
    rcases hcase with ⟨_, rfl⟩ | ⟨d, _, _, hget⟩ | ⟨d, hd, hs, _, hget⟩
    · refine ih ((pf, vf) :: done) mid hA ?_ hdoneP' hLP' hvalid' hnd.2 hfresh'
      intro v rv q hv hn
      obtain ⟨h1, h2⟩ := hJ v rv q hv hn
      exact ⟨List.mem_cons_of_mem _ h1, h2⟩
    · refine ih ((pf, vf) :: done) mid ?_ ?_ hdoneP' hLP' hvalid' hnd.2 hfresh'
      · intro q
        rw [pci_dev_of_map _ _ (marked vf) (fun _ _ => rfl) hget q]
        exact hA q
      · intro v rv1 q hv hn
        obtain ⟨rv, hrv, rfl⟩ := get_of_map _ _ (marked vf) hget v rv1 hv
        obtain ⟨h1, h2⟩ := hJ v rv q hrv hn
        exact ⟨List.mem_cons_of_mem _ h1, h2⟩
    · refine ih ((pf, vf) :: done) mid ?_ ?_ hdoneP' hLP' hvalid' hnd.2 hfresh'
      · intro q
        rw [pci_dev_of_map _ _ (linked pf vf X.num_vfs) (fun _ _ => rfl) hget q]
        exact hA q
      · intro v rv1 q hv hn
        obtain ⟨rv, hrv, rfl⟩ := get_of_map _ _ (linked pf vf X.num_vfs) hget v rv1 hv
        by_cases hvv : v = vf
        · subst hvv
          rw [hV] at hrv
          simp only [Option.some.injEq] at hrv
          subst hrv
          have hq : q = pf := by
            simp only [linked, if_true, Option.some.injEq] at hn
            exact hn.symm
          subst hq
          refine ⟨List.mem_cons_self _ _, Xa, d, hXa, ?_, ?_⟩
          · exact hd
          · rw [← hXpci]; exact hs
        · have hn' : rv.vfnode = some q := by
            simpa [linked, hvv] using hn
          obtain ⟨h1, h2⟩ := hJ v rv q hrv hn'
          exact ⟨List.mem_cons_of_mem _ h1, h2⟩

theorem fresh_owned (heap : List pci_device) (hfresh : ∀ r ∈ heap, r.vfs = []) :
    vfs_owned heap := by
  intro q r hr
  have := hfresh r (List.getElem?_mem hr)
  rw [this]
  exact ⟨List.nodup_nil, fun v hv => absurd hv (List.not_mem_nil v)⟩

theorem fresh_counted (heap : List pci_device)
    (hfresh : ∀ r ∈ heap, r.vfs = [] ∧ r.num_vfs = 0) : vfs_counted heap := by
  intro q r hr
  obtain ⟨h1, h2⟩ := hfresh r (List.getElem?_mem hr)
  rw [h1, h2]
  refine ⟨rfl, ?_⟩
  intro k v hv
  simp at hv

theorem registry_map (heap : List pci_device) (F : pci_device → Nat × Nat × Nat × Nat) :
    ∀ P : List Nat, (∀ d ∈ P, d < heap.length) →
      ((registry { heap := heap, pci_devices := P }).map F).map some =
        P.map (fun d => (heap[d]?).map F) := by
  intro P
  induction P with
  | nil => intro _; rfl
  | cons d P ih =>
    intro hv
    have hd : d < heap.length := hv d (List.mem_cons_self _ _)
    have ih' := ih (fun x hx => hv x (List.mem_cons_of_mem _ hx))
    unfold registry at ih' ⊢
    simp only [List.filterMap_cons, List.getElem?_eq_getElem hd, List.map_cons, Option.map_some']
    simp only at ih'
    rw [ih']

theorem mem_registry (state : libbiosdevname_state) (d : Nat) (r : pci_device)
    (hd : d ∈ state.pci_devices) (hr : state.heap[d]? = some r) : r ∈ registry state := by
  unfold registry
  rw [List.mem_filterMap]
  exact ⟨d, hd, hr⟩

/-- Pairwise distinct registry addresses, stated on the pointers of the list. -/
theorem distinct_pointers (state : libbiosdevname_state)
    (hvalid : ∀ d ∈ state.pci_devices, d < state.heap.length)
    (hdistinct : ((registry state).map (fun r => address r.pci_dev)).Nodup) :
    state.pci_devices.Nodup ∧
    ∀ p1 p2 X1 X2, p1 ∈ state.pci_devices → p2 ∈ state.pci_devices →
      (state.heap[p1]?).map (fun r => r.pci_dev) = some X1 →
      (state.heap[p2]?).map (fun r => r.pci_dev) = some X2 →
      address X1 = address X2 → p1 = p2 := by
  have hmap := registry_map state.heap (fun r => address r.pci_dev) state.pci_devices hvalid
  have hnd : (state.pci_devices.map
      (fun d => (state.heap[d]?).map (fun r => address r.pci_dev))).Nodup := by
    rw [← hmap]
    exact hdistinct.map (Option.some_injective _)
  refine ⟨hnd.of_map _, ?_⟩
  intro p1 p2 X1 X2 h1 h2 hX1 hX2 ha
  apply List.inj_on_of_nodup_map hnd h1 h2
  cases hh1 : state.heap[p1]? with
  | none => rw [hh1] at hX1; exact absurd hX1 (by simp)
  | some r1 =>
    cases hh2 : state.heap[p2]? with
    | none => rw [hh2] at hX2; exact absurd hX2 (by simp)
    | some r2 =>
      rw [hh1] at hX1
      rw [hh2] at hX2
      simp only [Option.map_some', Option.some.injEq] at hX1 hX2 ⊢
      rw [hX1, hX2]
      exact ha

theorem mem_link_pairs (l : List Nat) (x : Nat × Nat) :
    x ∈ link_pairs l ↔ x.1 ∈ l ∧ x.2 ∈ l := by
  unfold link_pairs
  simp only [List.mem_flatten, List.mem_map]
  constructor
  · rintro ⟨row, ⟨pf, hpf, rfl⟩, hx⟩
    rw [List.mem_map] at hx
    obtain ⟨vf, hvf, rfl⟩ := hx
    exact ⟨hpf, hvf⟩
  · rintro ⟨h1, h2⟩
    exact ⟨_, ⟨x.1, h1, rfl⟩, List.mem_map.2 ⟨x.2, h2, rfl⟩⟩

theorem nodup_link_pairs (l : List Nat) (hl : l.Nodup) : (link_pairs l).Nodup := by
  have : link_pairs l = List.product l l := rfl
  rw [this]
  exact hl.product hl

/-- From fresh records with pairwise distinct addresses, and with a `physfn` read that
never faults, every initial segment of the second pass returns. -/
theorem link_steps_return (h : host) (state : libbiosdevname_state)
    (hfresh : ∀ r ∈ state.heap, r.vfnode = none)
    (hvalid : ∀ d ∈ state.pci_devices, d < state.heap.length)
    (hdistinct : ((registry state).map (fun r => address r.pci_dev)).Nodup)
    (hphys : ∀ r ∈ registry state, find_physfn h r.pci_dev ≠ Result.fault) (k : Nat) :
    ∃ state1, run_links h ((link_pairs state.pci_devices).take k) state = Result.ok state1 := by
  obtain ⟨hnd, hdis⟩ := distinct_pointers state hvalid hdistinct
  have hsub : ∀ x ∈ (link_pairs state.pci_devices).take k,
      x.1 ∈ state.pci_devices ∧ x.2 ∈ state.pci_devices :=
    fun x hx => (mem_link_pairs _ x).1 (List.mem_of_mem_take hx)
  refine run_links_returns h (fun q => (state.heap[q]?).map (fun r => r.pci_dev))
    state.pci_devices hdis ?_ _ [] state (fun _ => rfl) ?_ ?_ hsub ?_ ?_ ?_
  · intro v V hv hV
    simp only at hV
    cases hh : state.heap[v]? with
    | none => rw [hh] at hV; exact absurd hV (by simp)
    | some r =>
      rw [hh] at hV
      simp only [Option.map_some', Option.some.injEq] at hV
      subst hV
      exact hphys r (mem_registry state v r hv hh)
  · intro v rv q hv hn
    rw [hfresh rv (List.getElem?_mem hv)] at hn
    exact absurd hn (by simp)
  · intro x hx
    exact absurd hx (List.not_mem_nil x)
  · intro x hx
    obtain ⟨h1, h2⟩ := hsub x hx
    have l1 := hvalid _ h1
    have l2 := hvalid _ h2
    simp [List.getElem?_eq_getElem l1, List.getElem?_eq_getElem l2]
  · exact (nodup_link_pairs _ hnd).sublist (List.take_sublist _ _)
  · intro x _
    exact List.not_mem_nil x

/-- C6 (VF attachment exactness). For every pair of records `X` (at `pf`) and `VF` (at
`vf`) of the heap, with the `physfn` read of `VF` returning `res`, `X.num_vfs` below
`UINT_MAX`, and the node of `VF` not yet on a list when it is about to be attached:
`add_vf_to_pf` returns, and it appends `VF` to the list of `X` if and only if `res` is
present and has the address of `X`. When it attaches, `X.num_vfs` grows by exactly 1, the
list of `X` is the old list with `vf` added at the tail, `VF.vf_index` is the previous
`X.num_vfs` and `VF.pf` is `X`; when it does not, the list and `num_vfs` of `X` are
unchanged. -/
theorem vf_attachment (h : host) (state : libbiosdevname_state) (pf vf : Nat)
    (X V : pci_device) (res : Option pci_dev)
    (hX : state.heap[pf]? = some X) (hV : state.heap[vf]? = some V)
    (hphys : find_physfn h V.pci_dev = Result.ok res)
    (hnum : X.num_vfs + 1 < 2 ^ 32)
    (hfree : (∃ d, res = some d ∧ address d = address X.pci_dev) → V.vfnode = none) :
    ∃ state1 X1 V1, add_vf_to_pf h state pf vf = Result.ok state1 ∧
      state1.heap[pf]? = some X1 ∧ state1.heap[vf]? = some V1 ∧
      (X1.vfs = X.vfs ++ [vf] ↔ ∃ d, res = some d ∧ address d = address X.pci_dev) ∧
      ((∃ d, res = some d ∧ address d = address X.pci_dev) →
        X1.num_vfs = X.num_vfs + 1 ∧ X1.vfs = X.vfs ++ [vf] ∧
        V1.vf_index = X.num_vfs ∧ V1.pf = some pf) ∧
      ((¬ ∃ d, res = some d ∧ address d = address X.pci_dev) →
        X1.vfs = X.vfs ∧ X1.num_vfs = X.num_vfs) := by
  have hfree' : ∀ d, res = some d → is_same_pci X.pci_dev d = true → V.vfnode = none :=
    fun d hd hs => hfree ⟨d, hd, ((is_same_pci_iff _ _).1 hs).symm⟩
  obtain ⟨state1, hrun⟩ := add_vf_to_pf_returns h state pf vf X V res hX hV hphys hfree'
  obtain ⟨_, hcase⟩ := add_vf_to_pf_shape h state state1 pf vf X V hX hV hrun
  have hne : X.vfs ≠ X.vfs ++ [vf] := by
    intro he
    have := congrArg List.length he
    simp at this
  rcases hcase with ⟨hnone, hst⟩ | ⟨d, hd, hs, hget⟩ | ⟨d, hd, hs, _, hget⟩
  · have hres : res = none := by
      rw [hphys] at hnone
      simpa using hnone
    have hno : ¬ ∃ d, res = some d ∧ address d = address X.pci_dev := by
      rintro ⟨d, hd, _⟩
      rw [hres] at hd
      exact absurd hd (by simp)
    refine ⟨state1, X, V, hrun, hst ▸ hX, hst ▸ hV, ?_, fun hm => absurd hm hno,
      fun _ => ⟨rfl, rfl⟩⟩
    exact ⟨fun he => absurd he hne, fun hm => absurd hm hno⟩
  · have hres : res = some d := by
      rw [hphys] at hd
      simpa using hd
    have hno : ¬ ∃ d, res = some d ∧ address d = address X.pci_dev := by
      rintro ⟨d', hd', ha⟩
      rw [hres] at hd'
      simp only [Option.some.injEq] at hd'
      subst hd'
      rw [(is_same_pci_iff _ _).2 ha.symm] at hs
      exact absurd hs (by simp)
    refine ⟨state1, marked vf pf X, marked vf vf V, hrun, map_of_get _ _ _ hget pf X hX,
      map_of_get _ _ _ hget vf V hV, ?_, fun hm => absurd hm hno, fun _ => ⟨rfl, rfl⟩⟩
    exact ⟨fun he => absurd he hne, fun hm => absurd hm hno⟩
  · have hres : res = some d := by
      rw [hphys] at hd
      simpa using hd
    have hyes : ∃ d, res = some d ∧ address d = address X.pci_dev :=
      ⟨d, hres, ((is_same_pci_iff _ _).1 hs).symm⟩
    have hvfs : (linked pf vf X.num_vfs pf X).vfs = X.vfs ++ [vf] := by simp [linked]
    have hn : (linked pf vf X.num_vfs pf X).num_vfs = X.num_vfs + 1 := by
      simp only [linked, if_true]
      exact Nat.mod_eq_of_lt hnum
    have hidx : (linked pf vf X.num_vfs vf V).vf_index = X.num_vfs := by simp [linked]
    have hpf : (linked pf vf X.num_vfs vf V).pf = some pf := by simp [linked]
    refine ⟨state1, linked pf vf X.num_vfs pf X, linked pf vf X.num_vfs vf V, hrun,
      map_of_get _ _ _ hget pf X hX, map_of_get _ _ _ hget vf V hV, ?_, ?_, ?_⟩
    · exact ⟨fun _ => hyes, fun _ => hvfs⟩
    · exact fun _ => ⟨hn, hvfs, hidx, hpf⟩
    · exact fun hno => absurd hyes hno

/-- Witness for C6: `0000:06:00.1` has a `physfn` link to `../0000:06:00.0`;
calling `add_vf_to_pf` on the pair gives `num_vfs` 1 on `0000:06:00.0` and `vf_index` 0. -/
theorem vf_attachment_witness :
    ∃ state1 X1 V1, add_vf_to_pf sriov_host sriov_state 0 1 = Result.ok state1 ∧
      state1.heap[0]? = some X1 ∧ state1.heap[1]? = some V1 ∧
      X1.num_vfs = 1 ∧ X1.vfs = [1] ∧ V1.vf_index = 0 ∧ V1.pf = some 0 :=
  match vf_attachment sriov_host sriov_state 0 1
      (new_pci_device sriov_host ⟨0, 6, 0, 0, 0x200⟩ INT_MAX)
      (new_pci_device sriov_host ⟨0, 6, 0, 1, 0x200⟩ INT_MAX)
      (some ⟨0, 6, 0, 0, 0⟩) rfl rfl (by decide) (by decide) (fun _ => rfl) with
  | ⟨state1, X1, V1, hrun, hX1, hV1, _, hyes, _⟩ =>
    ⟨state1, X1, V1, hrun, hX1, hV1,
      (hyes ⟨⟨0, 6, 0, 0, 0⟩, rfl, by decide⟩).1,
      (hyes ⟨⟨0, 6, 0, 0, 0⟩, rfl, by decide⟩).2.1,
      (hyes ⟨⟨0, 6, 0, 0, 0⟩, rfl, by decide⟩).2.2.1,
      (hyes ⟨⟨0, 6, 0, 0, 0⟩, rfl, by decide⟩).2.2.2⟩

theorem indices_of_counted (heap : List pci_device) (hcnt : vfs_counted heap) (q : Nat)
    (r : pci_device) (hr : heap[q]? = some r) :
    r.vfs.map (fun v => (heap[v]?).map (fun rv => rv.vf_index)) =
      (List.range r.num_vfs).map some := by
  obtain ⟨hnum, hidx⟩ := hcnt q r hr
  apply List.ext_getElem?
  intro k
  rw [List.getElem?_map, List.getElem?_map]
  rcases Nat.lt_or_ge k r.vfs.length with hk | hk
  · rw [List.getElem?_eq_getElem hk, List.getElem?_eq_getElem (by simp; omega)]
    obtain ⟨rv, hrv, hi⟩ := hidx k r.vfs[k] (List.getElem?_eq_getElem hk)
    simp [hrv, hi]
  · rw [List.getElem?_eq_none hk, List.getElem?_eq_none (by simp; omega)]
    rfl

/-- C7 (no double attachment). For every state of fresh records (empty lists, nodes not on
a list) whose list pointers are valid and whose registry has pairwise distinct addresses,
and every sysfs host: whenever the full all-pairs pass of `get_pci_devices` returns, no
virtual-function list holds a record twice and no record is on the lists of two records;
and the pass does return when no `physfn` read of a registry record faults. -/
theorem no_double_attachment (h : host) (state : libbiosdevname_state)
    (hfresh : ∀ r ∈ state.heap, r.vfs = [] ∧ r.vfnode = none)
    (hvalid : ∀ d ∈ state.pci_devices, d < state.heap.length)
    (hdistinct : ((registry state).map (fun r => address r.pci_dev)).Nodup) :
    (∀ state1, link_all h state = Result.ok state1 →
      (∀ (q : Nat) (r : pci_device), state1.heap[q]? = some r → r.vfs.Nodup) ∧
      (∀ (q1 q2 : Nat) (r1 r2 : pci_device) (v : Nat), state1.heap[q1]? = some r1 →
        state1.heap[q2]? = some r2 → v ∈ r1.vfs → v ∈ r2.vfs → q1 = q2)) ∧
    ((∀ r ∈ registry state, find_physfn h r.pci_dev ≠ Result.fault) →
      ∃ state1, link_all h state = Result.ok state1) := by
  constructor
  · intro state1 hrun
    rw [link_all_eq] at hrun
    obtain ⟨_, _, hown, _⟩ := run_links_inv h _ state state1 hrun
      (fresh_owned state.heap (fun r hr => (hfresh r hr).1))
    refine ⟨fun q r hr => (hown q r hr).1, ?_⟩
    intro q1 q2 r1 r2 v h1 h2 hv1 hv2
    obtain ⟨rv1, hrv1, hn1⟩ := (hown q1 r1 h1).2 v hv1
    obtain ⟨rv2, hrv2, hn2⟩ := (hown q2 r2 h2).2 v hv2
    rw [hrv1] at hrv2
    simp only [Option.some.injEq] at hrv2
    subst hrv2
    rw [hn1] at hn2
    simpa using hn2
  · intro hphys
    have := link_steps_return h state (fun r hr => (hfresh r hr).2) hvalid hdistinct hphys
      (link_pairs state.pci_devices).length
    rw [List.take_length] at this
    rw [link_all_eq]
    exact this

/-- Witness for C7: the two fresh records `0000:06:00.0` and
`0000:06:00.1`, the second with a `physfn` link to the first. -/
theorem no_double_attachment_witness :
    (∀ state1, link_all sriov_host sriov_state = Result.ok state1 →
      (∀ (q : Nat) (r : pci_device), state1.heap[q]? = some r → r.vfs.Nodup) ∧
      (∀ (q1 q2 : Nat) (r1 r2 : pci_device) (v : Nat), state1.heap[q1]? = some r1 →
        state1.heap[q2]? = some r2 → v ∈ r1.vfs → v ∈ r2.vfs → q1 = q2)) ∧
    ((∀ r ∈ registry sriov_state, find_physfn sriov_host r.pci_dev ≠ Result.fault) →
      ∃ state1, link_all sriov_host sriov_state = Result.ok state1) :=
  no_double_attachment sriov_host sriov_state (by decide) (by decide) (by decide)

/-- C8 (VF-count invariant). Starting from freshly created records (`num_vfs` 0, empty
list, node not on a list) in a heap of fewer than `2^32` records: the second pass of
`get_pci_devices` is the sequence of `add_vf_to_pf` calls of `link_pairs`; after every
initial segment of that sequence (that is, after every step) each record has `num_vfs`
equal to the length of its virtual-function list, and the `vf_index` values of the members
of the list, read in list order, are exactly `0, 1, ..., num_vfs - 1`; and every step does
return when the list pointers are valid, the registry addresses are pairwise distinct and
no `physfn` read of a registry record faults. -/
theorem vf_count_invariant (h : host) (state : libbiosdevname_state)
    (hfresh : ∀ r ∈ state.heap, r.vfs = [] ∧ r.vfnode = none ∧ r.num_vfs = 0)
    (hlen : state.heap.length < 2 ^ 32) :
    link_all h state = run_links h (link_pairs state.pci_devices) state ∧
    (∀ (k : Nat) (state1 : libbiosdevname_state),
      run_links h ((link_pairs state.pci_devices).take k) state = Result.ok state1 →
      ∀ (q : Nat) (r : pci_device), state1.heap[q]? = some r →
        r.num_vfs = r.vfs.length ∧
        r.vfs.map (fun v => (state1.heap[v]?).map (fun rv => rv.vf_index)) =
          (List.range r.num_vfs).map some) ∧
    ((∀ d ∈ state.pci_devices, d < state.heap.length) →
      ((registry state).map (fun r => address r.pci_dev)).Nodup →
      (∀ r ∈ registry state, find_physfn h r.pci_dev ≠ Result.fault) →
      ∀ k, ∃ state1,
        run_links h ((link_pairs state.pci_devices).take k) state = Result.ok state1) := by
  refine ⟨link_all_eq h state, ?_, ?_⟩
  · intro k state1 hrun q r hr
    obtain ⟨_, _, _, hcnt⟩ := run_links_inv h _ state state1 hrun
      (fresh_owned state.heap (fun r hr => (hfresh r hr).1))
    have hc := hcnt (fresh_counted state.heap (fun r hr => ⟨(hfresh r hr).1, (hfresh r hr).2.2⟩))
      hlen
    exact ⟨(hc q r hr).1, indices_of_counted _ hc q r hr⟩
  · intro hvalid hdistinct hphys k
    exact link_steps_return h state (fun r hr => (hfresh r hr).2.1) hvalid hdistinct hphys k

/-- Witness for C8: the two fresh records `0000:06:00.0` and
`0000:06:00.1`; after the whole pass the first has `num_vfs` 1 and the list `[1]`. -/
theorem vf_count_invariant_witness :
    link_all sriov_host sriov_state =
      run_links sriov_host (link_pairs sriov_state.pci_devices) sriov_state ∧
    (∀ (k : Nat) (state1 : libbiosdevname_state),
      run_links sriov_host ((link_pairs sriov_state.pci_devices).take k) sriov_state =
        Result.ok state1 →
      ∀ (q : Nat) (r : pci_device), state1.heap[q]? = some r →
        r.num_vfs = r.vfs.length ∧
        r.vfs.map (fun v => (state1.heap[v]?).map (fun rv => rv.vf_index)) =
          (List.range r.num_vfs).map some) ∧
    ((∀ d ∈ sriov_state.pci_devices, d < sriov_state.heap.length) →
      ((registry sriov_state).map (fun r => address r.pci_dev)).Nodup →
      (∀ r ∈ registry sriov_state, find_physfn sriov_host r.pci_dev ≠ Result.fault) →
      ∀ k, ∃ state1,
        run_links sriov_host ((link_pairs sriov_state.pci_devices).take k) sriov_state =
          Result.ok state1) :=
  vf_count_invariant sriov_host sriov_state (by decide) (by decide)

/-- The scenario of the spec, run through `get_pci_devices`: after the scan
`0000:06:00.0`, `0000:06:00.1` with the `physfn` link of the second pointing to the first,
`0000:06:00.0` has `num_vfs` 1 and its list holds `0000:06:00.1`, whose `vf_index` is 0. -/
theorem get_pci_devices_sriov :
    (match get_pci_devices 0 sriov_host
        (some { devices := [⟨0, 6, 0, 0, 0x200⟩, ⟨0, 6, 0, 1, 0x200⟩] }) none
        (fun _ => true) empty_state with
      | Result.ok (rc, state) =>
        some (rc, state.pci_devices,
          state.heap.map (fun r => (r.pci_dev, r.num_vfs, r.vfs, r.vf_index, r.pf,
            r.is_virtual_function)))
      | Result.fault => none
      | Result.timeout => none) =
    some (0, [1, 0],
      [(⟨0, 6, 0, 0, 0x200⟩, 1, [1], 0, none, 0), (⟨0, 6, 0, 1, 0x200⟩, 0, [], 0, some 0, 1)]) := by
  rfl

theorem mem_registry_iff (state : libbiosdevname_state) (r : pci_device) :
    r ∈ registry state ↔ ∃ d, d ∈ state.pci_devices ∧ state.heap[d]? = some r := by
  unfold registry
  rw [List.mem_filterMap]

theorem is_same_pci_congr (p q r : pci_dev) (hpq : address p = address q) :
    is_same_pci p r = is_same_pci q r := by
  cases h1 : is_same_pci p r with
  | true =>
    rw [is_same_pci_iff] at h1
    exact ((is_same_pci_iff q r).2 (hpq ▸ h1)).symm
  | false =>
    cases h2 : is_same_pci q r with
    | false => rfl
    | true =>
      rw [is_same_pci_iff] at h2
      rw [(is_same_pci_iff p r).2 (hpq.trans h2)] at h1
      exact absurd h1 (by simp)

theorem find_loop_congr (heap : List pci_device) (p q : pci_dev) (hpq : address p = address q) :
    ∀ ptrs : List Nat, find_loop heap p ptrs = find_loop heap q ptrs := by
  intro ptrs
  induction ptrs with
  | nil => rfl
  | cons d rest ih =>
    unfold find_loop
    cases heap[d]? with
    | none => rfl
    | some r =>
      simp only
      rw [is_same_pci_congr p q r.pci_dev hpq, ih]

/-- The lookup loop on valid pointers: it returns; what it returns is a pointer of the list
to a record with the address asked for; it returns `NULL` exactly when no record of the
registry has that address. -/
theorem find_loop_sound_complete (state : libbiosdevname_state) (q : pci_dev)
    (hvalid : ∀ d ∈ state.pci_devices, d < state.heap.length) :
    ∃ res, find_loop state.heap q state.pci_devices = Result.ok res ∧
      (∀ d, res = some d → d ∈ state.pci_devices ∧
        ∃ r, state.heap[d]? = some r ∧ address r.pci_dev = address q) ∧
      (res = none ↔ ∀ r ∈ registry state, address r.pci_dev ≠ address q) := by
  refine ⟨_, find_loop_valid state.heap q state.pci_devices hvalid, ?_, ?_⟩
  · intro d hd
    have hmem := List.mem_of_find?_eq_some hd
    have hp := List.find?_some hd
    refine ⟨hmem, ?_⟩
    rw [List.getElem?_eq_getElem (hvalid d hmem)] at hp
    simp only at hp
    exact ⟨_, List.getElem?_eq_getElem (hvalid d hmem), ((is_same_pci_iff _ _).1 hp).symm⟩
  · rw [List.find?_eq_none]
    constructor
    · intro hnone r hr ha
      obtain ⟨d, hd, hdr⟩ := (mem_registry_iff state r).1 hr
      have := hnone d hd
      rw [hdr] at this
      simp only at this
      exact this ((is_same_pci_iff _ _).2 ha.symm)
    · intro hall d hd
      have hlt := hvalid d hd
      rw [List.getElem?_eq_getElem hlt]
      simp only
      intro hs
      exact hall state.heap[d] ((mem_registry_iff state _).2 ⟨d, hd, List.getElem?_eq_getElem hlt⟩)
        ((is_same_pci_iff _ _).1 hs).symm

/-- C18 (registry lookup is sound and complete). For every state whose list pointers are
valid and every address (domain, bus 0..255, device 0..31, function 0..7):
`find_pci_dev_by_pci_addr` returns; a record it returns is in the registry and has the
domain, bus, device and function asked for; it returns `NULL` if and only if no registry
record has that address; and `find_dev_by_pci`, for any device with that address, returns
the same record. -/
theorem lookup_sound_complete (state : libbiosdevname_state) (domain bus dev func : Nat)
    (hvalid : ∀ d ∈ state.pci_devices, d < state.heap.length)
    (hbus : bus < 256) (hdev : dev < 32) (hfunc : func < 8) :
    ∃ res, find_pci_dev_by_pci_addr state domain bus dev func = Result.ok res ∧
      (∀ d, res = some d → d ∈ state.pci_devices ∧
        ∃ r, state.heap[d]? = some r ∧ r ∈ registry state ∧ r.pci_dev.domain = domain ∧
          r.pci_dev.bus = bus ∧ r.pci_dev.dev = dev ∧ r.pci_dev.func = func) ∧
      (res = none ↔ ∀ r ∈ registry state, address r.pci_dev ≠ (domain, bus, dev, func)) ∧
      (∀ p : pci_dev, address p = (domain, bus, dev, func) →
        find_dev_by_pci state p = Result.ok res) := by
  have haddr : address (pci_get_dev domain bus dev func) = (domain, bus, dev, func) := by
    simp only [address, pci_get_dev]
    rw [Nat.mod_eq_of_lt hbus, Nat.mod_eq_of_lt (by omega : dev < 256),
      Nat.mod_eq_of_lt (by omega : func < 256)]
  obtain ⟨res, hrun, hsound, hcomplete⟩ := find_loop_sound_complete state
    (pci_get_dev domain bus dev func) hvalid
  rw [haddr] at hsound hcomplete
  refine ⟨res, hrun, ?_, hcomplete, ?_⟩
  · intro d hd
    obtain ⟨hmem, r, hr, ha⟩ := hsound d hd
    simp only [address, Prod.mk.injEq] at ha
    exact ⟨hmem, r, hr, mem_registry state d r hmem hr, ha.1, ha.2.1, ha.2.2.1, ha.2.2.2⟩
  · intro p hp
    unfold find_dev_by_pci
    rw [find_loop_congr state.heap p _ (hp.trans haddr.symm)]
    exact hrun

/-- Witness for C18: the lookup of `0000:06:00.1` in the registry of the two records
`0000:06:00.0` and `0000:06:00.1`. -/
theorem lookup_sound_complete_witness :
    ∃ res, find_pci_dev_by_pci_addr sriov_state 0 6 0 1 = Result.ok res ∧
      (∀ d, res = some d → d ∈ sriov_state.pci_devices ∧
        ∃ r, sriov_state.heap[d]? = some r ∧ r ∈ registry sriov_state ∧ r.pci_dev.domain = 0 ∧
          r.pci_dev.bus = 6 ∧ r.pci_dev.dev = 0 ∧ r.pci_dev.func = 1) ∧
      (res = none ↔ ∀ r ∈ registry sriov_state, address r.pci_dev ≠ (0, 6, 0, 1)) ∧
      (∀ p : pci_dev, address p = (0, 6, 0, 1) →
        find_dev_by_pci sriov_state p = Result.ok res) :=
  lookup_sound_complete sriov_state 0 6 0 1 (by decide) (by decide) (by decide) (by decide)

theorem parse_pci_name_fail (s : List Char) (domain bus dev func : Nat)
    (h1 : (sscanf s fmt_full).1 ≠ 4) (h2 : (sscanf s fmt_legacy).1 ≠ 3) :
    (parse_pci_name s domain bus dev func).1 = 1 := by
  unfold parse_pci_name
  simp only [h1, h2, ne_eq, not_false_eq_true, if_true]

theorem parse_pci_name_ok (s : List Char) (domain bus dev func : Nat)
    (h : (sscanf s fmt_full).1 = 4 ∨ (sscanf s fmt_legacy).1 = 3) :
    (parse_pci_name s domain bus dev func).1 = 0 := by
  unfold parse_pci_name
  by_cases h1 : (sscanf s fmt_full).1 = 4
  · simp [h1]
  · have h2 : (sscanf s fmt_legacy).1 = 3 := h.resolve_left h1
    simp [h1, h2]

/-- A text that matches neither address grammar is looked up as `NULL`. -/
theorem find_dev_by_pci_name_no_match (state : libbiosdevname_state) (s : List Char)
    (h1 : (sscanf s fmt_full).1 ≠ 4) (h2 : (sscanf s fmt_legacy).1 ≠ 3) :
    find_dev_by_pci_name state s = Result.ok none := by
  unfold find_dev_by_pci_name
  simp only [parse_pci_name_fail s 0 0 0 0 h1 h2]
  rfl

/-- The full text `dddd:bb:dd.f` of an address is looked up at that address. -/
theorem find_dev_by_pci_name_full_text (state : libbiosdevname_state) (a : pci_dev)
    (hdom : a.domain < 2 ^ 32) (hbus : a.bus < 256) (hdev : a.dev < 256)
    (hfunc : a.func < 2 ^ 32) :
    find_dev_by_pci_name state (pci_name_text a) =
      find_pci_dev_by_pci_addr state a.domain a.bus a.dev a.func := by
  unfold find_dev_by_pci_name
  simp only [parse_pci_name_text a hdom hbus hdev hfunc 0 0 0 0]
  rfl

/-- The slip behind C2, seen through the lookup: the legacy text `bb:dd.f` is looked up at
domain `bb`, not at domain 0. -/
theorem find_dev_by_pci_name_legacy_text (state : libbiosdevname_state) (bus dev func : Nat)
    (hbus : bus < 256) (hdev : dev < 256) (hfunc : func < 2 ^ 32) :
    find_dev_by_pci_name state (legacy_name_text bus dev func) =
      find_pci_dev_by_pci_addr state bus bus dev func := by
  unfold find_dev_by_pci_name
  simp only [legacy_text_domain_is_bus bus dev func hbus hdev hfunc]
  rfl

/-- C11 (lookup by text), evaluated on the code: in the registry of `0000:06:00.0` and
`0000:06:00.1`, the legacy text `06:00.1` parses (return value 0) to domain 6, bus 6,
device 0, function 1, and `find_dev_by_pci_name` returns `NULL` for it, while
`find_pci_dev_by_pci_addr` at the address the text denotes (domain 0, bus 6, device 0,
function 1) returns the record, as does `find_dev_by_pci_name` on the full text
`0000:06:00.1`. -/
theorem lookup_by_legacy_text :
    parse_pci_name "06:00.1".toList 0 0 0 0 = (0, 6, 6, 0, 1) ∧
    find_dev_by_pci_name sriov_state "06:00.1".toList = Result.ok none ∧
    find_pci_dev_by_pci_addr sriov_state 0 6 0 1 = Result.ok (some 1) ∧
    find_dev_by_pci_name sriov_state "0000:06:00.1".toList = Result.ok (some 1) := by
  decide

theorem lor_one_and_two (x : Nat) : (x ||| 1) &&& 2 = x &&& 2 := by
  apply Nat.eq_of_testBit_eq
  intro i
  simp only [Nat.testBit_and, Nat.testBit_or]
  by_cases h : i = 1
  · subst h
    have h1 : Nat.testBit 1 1 = false := by decide
    rw [h1, Bool.or_false]
  · have h2 : Nat.testBit 2 i = false := by
      have e : (2 ^ 1).testBit i = decide (1 = i) := Nat.testBit_two_pow
      have hne : ¬ 1 = i := fun e => h e.symm
      simpa [hne] using e
    rw [h2, Bool.and_false, Bool.and_false]

theorem lor_two_and_one (x : Nat) : (x ||| 2) &&& 1 = x &&& 1 := by
  apply Nat.eq_of_testBit_eq
  intro i
  simp only [Nat.testBit_and, Nat.testBit_or]
  by_cases h : i = 0
  · subst h
    have h1 : Nat.testBit 2 0 = false := by decide
    rw [h1, Bool.or_false]
  · have h2 : Nat.testBit 1 i = false := by
      have e : (2 ^ 0).testBit i = decide (0 = i) := Nat.testBit_two_pow
      have hne : ¬ 0 = i := fun e => h e.symm
      simpa [hne] using e
    rw [h2, Bool.and_false, Bool.and_false]

theorem fill_label_none (h : host) (dev : pci_device) (p : pci_dev)
    (hlabel : read_pci_sysfs_label h p = none) :
    fill_pci_dev_sysfs h dev p =
      match read_pci_sysfs_index h p with
      | some index =>
        { dev with sysfs_index := index, uses_sysfs := dev.uses_sysfs ||| HAS_SYSFS_INDEX }
      | none => dev := by
  unfold fill_pci_dev_sysfs
  rw [hlabel]

theorem fill_index_none (h : host) (dev : pci_device) (p : pci_dev)
    (hindex : read_pci_sysfs_index h p = none) :
    fill_pci_dev_sysfs h dev p =
      match read_pci_sysfs_label h p with
      | some label =>
        { dev with sysfs_label := some label, uses_sysfs := dev.uses_sysfs ||| HAS_SYSFS_LABEL }
      | none => dev := by
  unfold fill_pci_dev_sysfs
  rw [hindex]

/-- C12 (missing-attribute degradation). For every record `dev` and device `p`: when the
label read fails (host `h`), `fill_pci_dev_sysfs` leaves `sysfs_label` and the
`HAS_SYSFS_LABEL` bit as they were (absent and clear on the record `add_pci_dev` passes),
and the record differs from the one a successful label read would have produced (host `h2`
with the same index read) in `sysfs_label` and that bit only. Symmetrically, when the index
read fails (host `hi`), `sysfs_index` and the `HAS_SYSFS_INDEX` bit are left as they were
and the record differs from the one a successful index read would have produced in
`sysfs_index` and that bit only. -/
theorem missing_attribute (h hi : host) (dev : pci_device) (p : pci_dev)
    (hlabel : read_pci_sysfs_label h p = none) (hindex : read_pci_sysfs_index hi p = none) :
    ((fill_pci_dev_sysfs h dev p).sysfs_label = dev.sysfs_label ∧
      (fill_pci_dev_sysfs h dev p).uses_sysfs &&& HAS_SYSFS_LABEL =
        dev.uses_sysfs &&& HAS_SYSFS_LABEL ∧
      (∀ slot, (new_pci_device h p slot).sysfs_label = none ∧
        (new_pci_device h p slot).uses_sysfs &&& HAS_SYSFS_LABEL = 0) ∧
      (∀ (h2 : host) (label : List Char), read_pci_sysfs_label h2 p = some label →
        read_pci_sysfs_index h2 p = read_pci_sysfs_index h p →
        fill_pci_dev_sysfs h2 dev p =
          { fill_pci_dev_sysfs h dev p with
            sysfs_label := some label,
            uses_sysfs := (fill_pci_dev_sysfs h dev p).uses_sysfs ||| HAS_SYSFS_LABEL })) ∧
    ((fill_pci_dev_sysfs hi dev p).sysfs_index = dev.sysfs_index ∧
      (fill_pci_dev_sysfs hi dev p).uses_sysfs &&& HAS_SYSFS_INDEX =
        dev.uses_sysfs &&& HAS_SYSFS_INDEX ∧
      (∀ (h2 : host) (index : Nat), read_pci_sysfs_index h2 p = some index →
        read_pci_sysfs_label h2 p = read_pci_sysfs_label hi p →
        fill_pci_dev_sysfs h2 dev p =
          { fill_pci_dev_sysfs hi dev p with
            sysfs_index := index,
            uses_sysfs := (fill_pci_dev_sysfs hi dev p).uses_sysfs ||| HAS_SYSFS_INDEX })) := by
  have hl : ∀ d : pci_device, (fill_pci_dev_sysfs h d p).sysfs_label = d.sysfs_label ∧
      (fill_pci_dev_sysfs h d p).uses_sysfs &&& HAS_SYSFS_LABEL =
        d.uses_sysfs &&& HAS_SYSFS_LABEL := by
    intro d
    rw [fill_label_none h d p hlabel]
    cases read_pci_sysfs_index h p with
    | none => exact ⟨rfl, rfl⟩
    | some index => exact ⟨rfl, lor_one_and_two d.uses_sysfs⟩
  refine ⟨⟨(hl dev).1, (hl dev).2, ?_, ?_⟩, ?_, ?_, ?_⟩
  · intro slot
    unfold new_pci_device
    have hz : zeroed.uses_sysfs &&& HAS_SYSFS_LABEL = 0 := by decide
    exact ⟨(hl _).1, (hl _).2.trans hz⟩
  · intro h2 label hl2 hi2
    rw [fill_label_none h dev p hlabel]
    unfold fill_pci_dev_sysfs
    rw [hl2, hi2]
  · rw [fill_index_none hi dev p hindex]
    cases read_pci_sysfs_label hi p <;> rfl
  · rw [fill_index_none hi dev p hindex]
    cases read_pci_sysfs_label hi p with
    | none => rfl
    | some label => exact lor_two_and_one dev.uses_sysfs
  · intro h2 index hi2 hl2
    rw [fill_index_none hi dev p hindex]
    unfold fill_pci_dev_sysfs
    rw [hi2, hl2]
    cases read_pci_sysfs_label hi p with
    | none => rfl
    | some label =>
      simp only [pci_device.mk.injEq, true_and, and_true]
      rw [Nat.lor_assoc, Nat.lor_assoc, Nat.lor_comm HAS_SYSFS_INDEX]

/-- Witness for C12: `0000:06:00.0` on a host with an `index` file and no `label` file
keeps no label and gets index 3; a host that also has a `label` file gives the same record
with the label and its bit added; on a host with neither file the index stays 0. -/
theorem missing_attribute_witness :
    (fill_pci_dev_sysfs index_host zeroed ⟨0, 6, 0, 0, 0x200⟩).sysfs_label = none ∧
    fill_pci_dev_sysfs labelled_host zeroed ⟨0, 6, 0, 0, 0x200⟩ =
      { fill_pci_dev_sysfs index_host zeroed ⟨0, 6, 0, 0, 0x200⟩ with
        sysfs_label := some "NIC1\n".toList,
        uses_sysfs :=
          (fill_pci_dev_sysfs index_host zeroed ⟨0, 6, 0, 0, 0x200⟩).uses_sysfs |||
            HAS_SYSFS_LABEL } ∧
    (fill_pci_dev_sysfs sriov_host zeroed ⟨0, 6, 0, 0, 0x200⟩).sysfs_index = 0 :=
  ⟨(missing_attribute index_host sriov_host zeroed ⟨0, 6, 0, 0, 0x200⟩ (by decide)
      (by decide)).1.1,
   (missing_attribute index_host sriov_host zeroed ⟨0, 6, 0, 0, 0x200⟩ (by decide)
      (by decide)).1.2.2.2 labelled_host "NIC1\n".toList (by decide) (by decide),
   (missing_attribute index_host sriov_host zeroed ⟨0, 6, 0, 0, 0x200⟩ (by decide)
      (by decide)).2.1⟩

/-- C14 (short or malformed sysfs paths), evaluated on the code: a device path with no `/`
makes `find_parent` write through the `NULL` that `rindex` returned; a device path with a
single `/` makes it read from `NULL + 1`; a `physfn` target with no `/` makes
`find_physfn` read from `NULL + 1`. None of the three calls returns `NULL`. -/
theorem short_path_faults :
    find_parent short_path_host ⟨0, 5, 0x17, 4, 0⟩ = Result.fault ∧
    find_parent short_path_host ⟨0, 5, 0x17, 5, 0⟩ = Result.fault ∧
    find_physfn short_path_host ⟨0, 6, 0, 1, 0⟩ = Result.fault := by
  decide

/-- C17 (SMBIOS type table), evaluated on the code: with 8-byte pointers `sizeof(msg)` is
80, so `type` 11 passes the range test and `msg[10]` is read, past the ten entries. -/
theorem smbios_type_out_of_bounds :
    unparse_smbios_type41_type 8 256 11 = Result.fault ∧
    (11 : Int) ≤ ((smbios_msg.length * 8 : Nat) : Int) ∧ smbios_msg[(10 : Nat)]? = none := by
  decide

/-- The outcomes of `unparse_smbios_type41_type` with 8-byte pointers: the name of the table
for 1..10, a read past the table for 11..80, the out-of-spec text otherwise. -/
theorem unparse_smbios_type41_type_cases (size : Nat) (type : Int) :
    (1 ≤ type ∧ type ≤ 10 →
      ∃ m, smbios_msg[(type - 1).toNat]? = some m ∧
        unparse_smbios_type41_type 8 size type = Result.ok (snprintf size (m.toList ++ ['\n']))) ∧
    (11 ≤ type ∧ type ≤ 80 → unparse_smbios_type41_type 8 size type = Result.fault) ∧
    (type ≤ 0 ∨ 80 < type →
      unparse_smbios_type41_type 8 size type =
        Result.ok (snprintf size "<OUT OF SPEC>\n".toList)) := by
  have hlen : ((smbios_msg.length * 8 : Nat) : Int) = 80 := by decide
  refine ⟨?_, ?_, ?_⟩
  · rintro ⟨h1, h2⟩
    have hlt : (type - 1).toNat < smbios_msg.length := by
      have : smbios_msg.length = 10 := rfl
      omega
    refine ⟨smbios_msg[(type - 1).toNat], List.getElem?_eq_getElem hlt, ?_⟩
    unfold unparse_smbios_type41_type
    rw [hlen, if_pos ⟨by omega, by omega⟩, List.getElem?_eq_getElem hlt]
  · rintro ⟨h1, h2⟩
    have hge : smbios_msg.length ≤ (type - 1).toNat := by
      have : smbios_msg.length = 10 := rfl
      omega
    unfold unparse_smbios_type41_type
    rw [hlen, if_pos ⟨by omega, by omega⟩, List.getElem?_eq_none hge]
  · intro h
    unfold unparse_smbios_type41_type
    rw [hlen, if_neg (by omega)]

theorem rindex_none (c : Char) : ∀ s : List Char, c ∉ s → rindex s c = none := by
  intro s
  induction s with
  | nil => intro _; rfl
  | cons x xs ih =>
    intro hc
    rw [List.mem_cons, not_or] at hc
    unfold rindex
    rw [ih hc.2]
    simp only
    rw [if_neg (fun e => hc.1 e.symm)]

theorem rindex_some_of_mem (c : Char) : ∀ s : List Char, c ∈ s → ∃ i, rindex s c = some i := by
  intro s
  induction s with
  | nil => intro hc; exact absurd hc (List.not_mem_nil c)
  | cons x xs ih =>
    intro hc
    unfold rindex
    cases hr : rindex xs c with
    | some i => exact ⟨i + 1, rfl⟩
    | none =>
      simp only
      by_cases hx : x = c
      · exact ⟨0, by rw [if_pos hx]⟩
      · rw [List.mem_cons] at hc
        rcases hc with hc | hc
        · exact absurd hc.symm hx
        · obtain ⟨i, hi⟩ := ih hc
          rw [hi] at hr
          exact absurd hr (by simp)

theorem rindex_append (c : Char) (b : List Char) (hb : c ∉ b) :
    ∀ a : List Char, rindex (a ++ c :: b) c = some a.length := by
  intro a
  induction a with
  | nil =>
    rw [List.nil_append]
    unfold rindex
    rw [rindex_none c b hb]
    simp
  | cons x a ih =>
    rw [List.cons_append]
    unfold rindex
    rw [ih]
    rfl

theorem c_string_of_link (target : List Char) (hlen : target.length < PATH_MAX)
    (hnul : Char.ofNat 0 ∉ target) : c_string PATH_MAX (target.take PATH_MAX) = some target := by
  have htake : target.take PATH_MAX = target := List.take_of_length_le (le_of_lt hlen)
  rw [htake]
  unfold c_string
  rw [if_pos hlen]
  congr 1
  rw [List.takeWhile_eq_self_iff]
  intro x hx
  have : x ≠ Char.ofNat 0 := fun e => hnul (e ▸ hx)
  simpa using this

theorem find_physfn_congr (h h2 : host) (p : pci_dev)
    (hlink : h2.readlink ("/sys/bus/pci/devices/".toList ++ pci_name16 p ++ "/physfn".toList) =
      h.readlink ("/sys/bus/pci/devices/".toList ++ pci_name16 p ++ "/physfn".toList)) :
    find_physfn h2 p = find_physfn h p := by
  unfold find_physfn read_pci_sysfs_physfn
  rw [hlink]

theorem find_parent_of_physfn (h : host) (p d : pci_dev)
    (hd : find_physfn h p = Result.ok (some d)) : find_parent h p = Result.ok (some d) := by
  unfold find_parent
  rw [hd]

/-- The bus-parent branch on a path `pre/seg/last`: the parent is parsed from `seg`. -/
theorem find_parent_of_path (h : host) (p : pci_dev) (pre seg last : List Char)
    (hnone : find_physfn h p = Result.ok none)
    (hlink : h.readlink ("/sys/bus/pci/devices/".toList ++ pci_name16 p) =
      some (pre ++ '/' :: (seg ++ '/' :: last)))
    (hseg : '/' ∉ seg) (hlast : '/' ∉ last)
    (hnul : Char.ofNat 0 ∉ pre ++ '/' :: (seg ++ '/' :: last))
    (hlen : (pre ++ '/' :: (seg ++ '/' :: last)).length < PATH_MAX) :
    find_parent h p = Result.ok (find_pdev_by_pci_name seg) := by
  have hsplit : pre ++ '/' :: (seg ++ '/' :: last) = (pre ++ '/' :: seg) ++ '/' :: last := by
    simp
  have hr1 : rindex (pre ++ '/' :: (seg ++ '/' :: last)) '/' = some (pre ++ '/' :: seg).length := by
    rw [hsplit]
    exact rindex_append '/' last hlast _
  have htake : (pre ++ '/' :: (seg ++ '/' :: last)).take (pre ++ '/' :: seg).length =
      pre ++ '/' :: seg := by
    rw [hsplit, List.take_left']
    rfl
  have hr2 : rindex (pre ++ '/' :: seg) '/' = some pre.length := rindex_append '/' seg hseg pre
  have hdrop : (pre ++ '/' :: seg).drop (pre.length + 1) = seg := by
    rw [show pre ++ '/' :: seg = (pre ++ ['/']) ++ seg by simp]
    rw [List.drop_left']
    simp
  unfold find_parent
  rw [hnone]
  simp only
  unfold read_pci_sysfs_path
  rw [hlink]
  simp only
  rw [c_string_of_link _ hlen hnul]
  simp only
  rw [hr1]
  simp only
  rw [htake, hr2]
  simp only
  rw [hdrop]

/-- C15 (parent precedence). For every host and device: when `find_physfn` resolves a
physical function, `find_parent` returns it, and so it does on every host with the same
`physfn` link, whatever the device-path link says; when `find_physfn` yields nothing and
the device path is `pre/seg/last`, `find_parent` returns the device parsed from the
second-to-last segment `seg`; and whatever `find_parent` returns is the result of
`find_physfn` unless `find_physfn` yielded nothing. -/
theorem parent_precedence (h : host) (p : pci_dev) :
    (∀ d, find_physfn h p = Result.ok (some d) → find_parent h p = Result.ok (some d)) ∧
    (∀ (h2 : host) (d : pci_dev), find_physfn h p = Result.ok (some d) →
      h2.readlink ("/sys/bus/pci/devices/".toList ++ pci_name16 p ++ "/physfn".toList) =
        h.readlink ("/sys/bus/pci/devices/".toList ++ pci_name16 p ++ "/physfn".toList) →
      find_parent h2 p = Result.ok (some d)) ∧
    (find_physfn h p = Result.ok none →
      ∀ pre seg last : List Char,
        h.readlink ("/sys/bus/pci/devices/".toList ++ pci_name16 p) =
          some (pre ++ '/' :: (seg ++ '/' :: last)) →
        '/' ∉ seg → '/' ∉ last → Char.ofNat 0 ∉ pre ++ '/' :: (seg ++ '/' :: last) →
        (pre ++ '/' :: (seg ++ '/' :: last)).length < PATH_MAX →
        find_parent h p = Result.ok (find_pdev_by_pci_name seg)) ∧
    (∀ res, find_parent h p = Result.ok res →
      find_physfn h p = Result.ok res ∨ find_physfn h p = Result.ok none) := by
  refine ⟨find_parent_of_physfn h p, ?_, ?_, ?_⟩
  · intro h2 d hd hlink
    exact find_parent_of_physfn h2 p d ((find_physfn_congr h h2 p hlink).trans hd)
  · intro hnone pre seg last hlink hseg hlast hnul hlen
    exact find_parent_of_path h p pre seg last hnone hlink hseg hlast hnul hlen
  · intro res hres
    cases hp : find_physfn h p with
    | fault =>
      unfold find_parent at hres
      rw [hp] at hres
      exact absurd hres (by simp)
    | timeout =>
      unfold find_parent at hres
      rw [hp] at hres
      exact absurd hres (by simp)
    | ok r =>
      cases r with
      | none => exact Or.inr rfl
      | some d =>
        rw [find_parent_of_physfn h p d hp] at hres
        exact Or.inl hres

/-- Witness for C15: `0000:06:00.1` has a `physfn` link to `0000:06:00.0` and a device path
through the bridge `0000:00:1c.0`; its parent is `0000:06:00.0`. On the host of the bridge
scenario, where `0000:05:17.4` has no `physfn` link, the parent is the bridge
`0000:00:09.0`. -/
theorem parent_precedence_witness :
    find_parent vf_bridge_host ⟨0, 6, 0, 1, 0⟩ = Result.ok (some ⟨0, 6, 0, 0, 0⟩) ∧
    find_parent bridge_host ⟨0, 5, 0x17, 4, 0⟩ =
      Result.ok (find_pdev_by_pci_name "0000:00:09.0".toList) :=
  ⟨(parent_precedence vf_bridge_host ⟨0, 6, 0, 1, 0⟩).1 ⟨0, 6, 0, 0, 0⟩ (by decide),
   (parent_precedence bridge_host ⟨0, 5, 0x17, 4, 0⟩).2.2.1 (by decide)
     "../../../devices/pci0000:00".toList "0000:00:09.0".toList "0000:05:17.4".toList
     (by decide) (by decide) (by decide) (by decide) (by decide)⟩

/-- The fault behind C14, for every link: a `physfn` target without any `/` makes
`find_physfn` fault. -/
theorem find_physfn_no_slash (h : host) (p : pci_dev) (target : List Char)
    (hlink : h.readlink ("/sys/bus/pci/devices/".toList ++ pci_name16 p ++ "/physfn".toList) =
      some target)
    (hlen : target.length < PATH_MAX) (hnul : Char.ofNat 0 ∉ target) (hslash : '/' ∉ target) :
    find_physfn h p = Result.fault := by
  unfold find_physfn read_pci_sysfs_physfn
  rw [hlink]
  simp only
  rw [c_string_of_link _ hlen hnul]
  simp only
  rw [rindex_none '/' target hslash]

/-- The fault behind C14, for every link: without a physical function, a device path that
has no `/`, or a single one, makes `find_parent` fault. -/
theorem find_parent_short_path (h : host) (p : pci_dev) (target : List Char)
    (hnone : find_physfn h p = Result.ok none)
    (hlink : h.readlink ("/sys/bus/pci/devices/".toList ++ pci_name16 p) = some target)
    (hlen : target.length < PATH_MAX) (hnul : Char.ofNat 0 ∉ target)
    (hshort : '/' ∉ target ∨ ∃ a b, target = a ++ '/' :: b ∧ '/' ∉ a ∧ '/' ∉ b) :
    find_parent h p = Result.fault := by
  unfold find_parent
  rw [hnone]
  simp only
  unfold read_pci_sysfs_path
  rw [hlink]
  simp only
  rw [c_string_of_link _ hlen hnul]
  simp only
  rcases hshort with hs | ⟨a, b, rfl, ha, hb⟩
  · rw [rindex_none '/' target hs]
  · rw [rindex_append '/' b hb a]
    simp only
    rw [List.take_left', rindex_none '/' a ha]
    rfl

theorem marked_get_self (heap heap1 : List pci_device) (vf : Nat) (V : pci_device)
    (hV : heap[vf]? = some V)
    (hget : ∀ q, heap1[q]? = (heap[q]?).map (marked vf q)) :
    heap1[vf]? = some { V with is_virtual_function := 1 } ∧
    ∀ q, q ≠ vf → heap1[q]? = heap[q]? := by
  constructor
  · rw [hget vf, hV]
    simp [marked]
  · intro q hq
    rw [hget q]
    cases heap[q]? with
    | none => rfl
    | some r => simp [marked, hq]

/-- One `add_vf_to_pf` call sets `is_virtual_function` only on a record that has a physical
function. -/
theorem add_vf_to_pf_flag (h : host) (state state1 : libbiosdevname_state) (pf vf : Nat)
    (hrun : add_vf_to_pf h state pf vf = Result.ok state1)
    (hinv : ∀ (q : Nat) (r : pci_device), state.heap[q]? = some r → r.is_virtual_function ≠ 0 →
      ∃ d, find_physfn h r.pci_dev = Result.ok (some d)) :
    ∀ (q : Nat) (r : pci_device), state1.heap[q]? = some r → r.is_virtual_function ≠ 0 →
      ∃ d, find_physfn h r.pci_dev = Result.ok (some d) := by
  obtain ⟨V, hV, hcases⟩ := add_vf_to_pf_valid h state state1 pf vf hrun
  rcases hcases with ⟨_, hst⟩ | ⟨X, hX⟩
  · subst hst
    exact hinv
  · obtain ⟨_, hcase⟩ := add_vf_to_pf_shape h state state1 pf vf X V hX hV hrun
    rcases hcase with ⟨_, hst⟩ | ⟨d, hd, _, hget⟩ | ⟨d, hd, _, _, hget⟩
    · subst hst
      exact hinv
    · intro q r1 h1 hflag
      obtain ⟨r, hr, rfl⟩ := get_of_map _ _ (marked vf) hget q r1 h1
      by_cases hq : q = vf
      · subst hq
        rw [hV] at hr
        simp only [Option.some.injEq] at hr
        subst hr
        exact ⟨d, hd⟩
      · exact hinv q r hr (by simpa [marked, hq] using hflag)
    · intro q r1 h1 hflag
      obtain ⟨r, hr, rfl⟩ := get_of_map _ _ (linked pf vf X.num_vfs) hget q r1 h1
      by_cases hq : q = vf
      · subst hq
        rw [hV] at hr
        simp only [Option.some.injEq] at hr
        subst hr
        exact ⟨d, hd⟩
      · exact hinv q r hr (by simpa [linked, hq] using hflag)

theorem run_links_flag (h : host) :
    ∀ (L : List (Nat × Nat)) (state state1 : libbiosdevname_state),
      run_links h L state = Result.ok state1 →
      (∀ (q : Nat) (r : pci_device), state.heap[q]? = some r → r.is_virtual_function ≠ 0 →
        ∃ d, find_physfn h r.pci_dev = Result.ok (some d)) →
      ∀ (q : Nat) (r : pci_device), state1.heap[q]? = some r → r.is_virtual_function ≠ 0 →
        ∃ d, find_physfn h r.pci_dev = Result.ok (some d) := by
  intro L
  induction L with
  | nil =>
    intro state state1 hrun hinv
    simp only [run_links, Result.ok.injEq] at hrun
    subst hrun
    exact hinv
  | cons x L ih =>
    intro state state1 hrun hinv
    obtain ⟨pf, vf⟩ := x
    rw [run_links] at hrun
    cases hstep : add_vf_to_pf h state pf vf with
    | fault => rw [hstep] at hrun; exact absurd hrun (by simp)
    | timeout => rw [hstep] at hrun; exact absurd hrun (by simp)
    | ok mid =>
      rw [hstep] at hrun
      exact ih mid state1 hrun (add_vf_to_pf_flag h state mid pf vf hstep hinv)

/-- C13 (linking touches a pair only on a match), as amended. For every pair of records `X`
(at `pf`) and `V` (at `vf`), with the `physfn` read of `V` returning `res` (and the node of
`V` not yet on a list when it is about to be attached), `add_vf_to_pf` returns and: when
the physical function is absent, the state is unchanged; when it names a different
address, `V.is_virtual_function` is set and nothing else changes in any record; when it
names the address of `X`, `V.is_virtual_function`, `V.vf_index` and `V.pf` are set and the
list and `num_vfs` of `X` change. Consequently, after the full pass over records whose flag
was clear, a record has `is_virtual_function` set only if `find_physfn` resolves a physical
function for it. -/
theorem link_touches (h : host) (state : libbiosdevname_state) (pf vf : Nat)
    (X V : pci_device) (res : Option pci_dev)
    (hX : state.heap[pf]? = some X) (hV : state.heap[vf]? = some V)
    (hphys : find_physfn h V.pci_dev = Result.ok res)
    (hfree : (∃ d, res = some d ∧ address d = address X.pci_dev) → V.vfnode = none) :
    (∃ state1, add_vf_to_pf h state pf vf = Result.ok state1 ∧
      (res = none → state1 = state) ∧
      ((∃ d, res = some d ∧ address d ≠ address X.pci_dev) →
        state1.heap[vf]? = some { V with is_virtual_function := 1 } ∧
        ∀ q, q ≠ vf → state1.heap[q]? = state.heap[q]?) ∧
      ((∃ d, res = some d ∧ address d = address X.pci_dev) →
        ∃ X1 V1, state1.heap[pf]? = some X1 ∧ state1.heap[vf]? = some V1 ∧
          V1.is_virtual_function = 1 ∧ V1.vf_index = X.num_vfs ∧ V1.pf = some pf ∧
          X1.vfs = X.vfs ++ [vf] ∧ X1.num_vfs = (X.num_vfs + 1) % 2 ^ 32)) ∧
    ((∀ r ∈ state.heap, r.is_virtual_function = 0) →
      ∀ state2, link_all h state = Result.ok state2 →
        ∀ (q : Nat) (r : pci_device), state2.heap[q]? = some r → r.is_virtual_function ≠ 0 →
          ∃ d, find_physfn h r.pci_dev = Result.ok (some d)) := by
  constructor
  · have hfree' : ∀ d, res = some d → is_same_pci X.pci_dev d = true → V.vfnode = none :=
      fun d hd hs => hfree ⟨d, hd, ((is_same_pci_iff _ _).1 hs).symm⟩
    obtain ⟨state1, hrun⟩ := add_vf_to_pf_returns h state pf vf X V res hX hV hphys hfree'
    obtain ⟨_, hcase⟩ := add_vf_to_pf_shape h state state1 pf vf X V hX hV hrun
    refine ⟨state1, hrun, ?_, ?_, ?_⟩
    · intro hnone
      rcases hcase with ⟨_, hst⟩ | ⟨d, hd, _⟩ | ⟨d, hd, _⟩
      · exact hst
      · rw [hphys, hnone] at hd
        exact absurd hd (by simp)
      · rw [hphys, hnone] at hd
        exact absurd hd (by simp)
    · rintro ⟨d, hd, hne⟩
      rcases hcase with ⟨hnone, _⟩ | ⟨d', _, _, hget⟩ | ⟨d', hd', hs, _⟩
      · rw [hphys, hd] at hnone
        exact absurd hnone (by simp)
      · exact marked_get_self _ _ vf V hV hget
      · rw [hphys, hd] at hd'
        simp only [Result.ok.injEq, Option.some.injEq] at hd'
        subst hd'
        exact absurd ((is_same_pci_iff _ _).1 hs).symm hne
    · rintro ⟨d, hd, he⟩
      rcases hcase with ⟨hnone, _⟩ | ⟨d', hd', hs, _⟩ | ⟨d', _, _, _, hget⟩
      · rw [hphys, hd] at hnone
        exact absurd hnone (by simp)
      · rw [hphys, hd] at hd'
        simp only [Result.ok.injEq, Option.some.injEq] at hd'
        subst hd'
        rw [(is_same_pci_iff _ _).2 he.symm] at hs
        exact absurd hs (by simp)
      · refine ⟨linked pf vf X.num_vfs pf X, linked pf vf X.num_vfs vf V,
          map_of_get _ _ _ hget pf X hX, map_of_get _ _ _ hget vf V hV, ?_, ?_, ?_, ?_, ?_⟩
          <;> simp [linked]
  · intro hzero state2 hrun
    rw [link_all_eq] at hrun
    refine run_links_flag h _ state state2 hrun ?_
    intro q r hr hflag
    exact absurd (hzero r (List.getElem?_mem hr)) hflag

/-- Witness for C13: the pair (`0000:06:00.0`, `0000:06:00.1`), the second with a `physfn`
link to the first. -/
theorem link_touches_witness :
    ∃ state1, add_vf_to_pf sriov_host sriov_state 0 1 = Result.ok state1 ∧
      ∃ X1 V1, state1.heap[0]? = some X1 ∧ state1.heap[1]? = some V1 ∧
        V1.is_virtual_function = 1 ∧ V1.pf = some 0 ∧ X1.vfs = [1] :=
  match (link_touches sriov_host sriov_state 0 1
      (new_pci_device sriov_host ⟨0, 6, 0, 0, 0x200⟩ INT_MAX)
      (new_pci_device sriov_host ⟨0, 6, 0, 1, 0x200⟩ INT_MAX)
      (some ⟨0, 6, 0, 0, 0⟩) rfl rfl (by decide) (fun _ => rfl)).1 with
  | ⟨state1, hrun, _, _, hyes⟩ =>
    match hyes ⟨⟨0, 6, 0, 0, 0⟩, rfl, by decide⟩ with
    | ⟨X1, V1, hX1, hV1, hflag, _, hpf, hvfs, _⟩ =>
      ⟨state1, hrun, X1, V1, hX1, hV1, hflag, hpf, hvfs⟩

/-- C13 as stated fails: `0000:06:00.1` has a `physfn` link to `0000:06:00.0`, which is
not the address of `0000:06:00.2` (and not in the registry). The call on the pair
(`0000:06:00.2`, `0000:06:00.1`) sets `is_virtual_function` of the second record, and
after the full pass that record is flagged while it is on no list and has no `pf`. -/
theorem link_marks_on_mismatch :
    find_physfn sriov_host ⟨0, 6, 0, 1, 0x200⟩ = Result.ok (some ⟨0, 6, 0, 0, 0⟩) ∧
    (match add_vf_to_pf sriov_host orphan_vf_state 0 1 with
      | Result.ok state => some (state.heap.map (fun r => r.is_virtual_function))
      | Result.fault => none
      | Result.timeout => none) = some [0, 1] ∧
    (orphan_vf_state.heap.map (fun r => r.is_virtual_function)) = [0, 0] ∧
    (match link_all sriov_host orphan_vf_state with
      | Result.ok state => some (state.heap.map (fun r => (r.is_virtual_function, r.pf, r.vfs)))
      | Result.fault => none
      | Result.timeout => none) = some [(0, none, []), (1, none, [])] := by
  refine ⟨by decide, by decide, by decide, by rfl⟩

end Pci
